import Mathlib

/-!
# Verification of the feedback-pulse worker

A shallow embedding of the feedback/digest HTTP service (`src/index.ts`):
a JSON value model with a parser and serializer standing in for the
platform `JSON.parse` / `JSON.stringify` (numbers are modelled as
integers, which covers every numeric field the service handles; raw
surrogate escapes, float literals and depth limits are out of scope),
the greedy `first-lbrace .. last-rbrace` regex extraction used on model
output, the classifier `analyseFeedback`, and the route handlers for
feedback submission, digest generation and the latest-digest read.

External collaborators are modelled per the design contract: the
database stores the values it is bound (its cells hold JSON values; a
missing JS property is modelled as JSON null at bind time), and the
inference endpoint is an arbitrary function from prompt text to either
an error or a raw response string.
-/

namespace FeedbackPulse

/-- A JSON value as the service manipulates it.  Object members keep
their textual order; numbers are integers (the service only ever
handles counts and ids). -/
inductive Json where
  | null
  | bool (b : Bool)
  | num (n : Int)
  | str (s : String)
  | arr (elems : List Json)
  | obj (members : List (String × Json))
deriving Repr

/-- Pairwise comparison of two lists with a supplied element test. -/
def listBeqWith (f : α → α → Bool) : List α → List α → Bool
  | [], [] => true
  | x :: xs, y :: ys => f x y && listBeqWith f xs ys
  | _, _ => false

/-- Fuel-bounded structural equality on JSON values; `fuel` at least the
term size makes it total, and keeping the recursion on the fuel keeps
the function kernel-reducible. -/
def jsonBeqF : Nat → Json → Json → Bool
  | 0, _, _ => false
  | f + 1, a, b =>
    match a, b with
    | .null, .null => true
    | .bool x, .bool y => x == y
    | .num x, .num y => x == y
    | .str x, .str y => x == y
    | .arr xs, .arr ys => listBeqWith (jsonBeqF f) xs ys
    | .obj ms, .obj ns =>
      listBeqWith (fun m n => m.1 == n.1 && jsonBeqF f m.2 n.2) ms ns
    | _, _ => false

mutual

/-- Size of a JSON value, as a computable measure for fuel bounds. -/
def jsize : Json → Nat
  | .null => 1
  | .bool _ => 1
  | .num _ => 1
  | .str _ => 1
  | .arr xs => 1 + jsizeList xs
  | .obj ms => 1 + jsizeMembers ms

/-- Combined size of a list of JSON values. -/
def jsizeList : List Json → Nat
  | [] => 0
  | x :: xs => 1 + jsize x + jsizeList xs

/-- Combined size of an object member list. -/
def jsizeMembers : List (String × Json) → Nat
  | [] => 0
  | m :: ms => 1 + jsize m.2 + jsizeMembers ms

end

instance : DecidableEq Json := fun a b =>
  have hszL : ∀ xs : List Json, ∀ x ∈ xs, jsize x < jsizeList xs := by
    intro xs
    induction xs with
    | nil => intro x hx; exact absurd hx (List.not_mem_nil x)
    | cons y ys ihy =>
      intro x hx
      rcases List.mem_cons.mp hx with hx | hx
      · subst hx; simp only [jsizeList]; omega
      · have := ihy x hx; simp only [jsizeList]; omega
  have hszM : ∀ ms : List (String × Json), ∀ m ∈ ms, jsize m.2 < jsizeMembers ms := by
    intro ms
    induction ms with
    | nil => intro m hm; exact absurd hm (List.not_mem_nil m)
    | cons n ns ihn =>
      intro m hm
      rcases List.mem_cons.mp hm with hm | hm
      · subst hm; simp only [jsizeMembers]; omega
      · have := ihn m hm; simp only [jsizeMembers]; omega
  have key : ∀ f : Nat, ∀ a b : Json, jsize a ≤ f → (jsonBeqF f a b = true ↔ a = b) := by
    intro f
    induction f with
    | zero =>
      intro a b h
      exact absurd h (by cases a <;> simp [jsize, jsizeList, jsizeMembers])
    | succ f ih =>
      have hlist : ∀ xs ys : List Json, (∀ x ∈ xs, jsize x ≤ f) →
          (listBeqWith (jsonBeqF f) xs ys = true ↔ xs = ys) := by
        intro xs
        induction xs with
        | nil => intro ys _; cases ys <;> simp [listBeqWith]
        | cons x xs ihx =>
          intro ys hs
          cases ys with
          | nil => simp [listBeqWith]
          | cons y ys =>
            simp [listBeqWith, ih x y (hs x (List.mem_cons_self x xs)),
              ihx ys (fun z hz => hs z (List.mem_cons_of_mem x hz))]
      have hmem : ∀ ms ns : List (String × Json), (∀ m ∈ ms, jsize m.2 ≤ f) →
          (listBeqWith (fun m n => m.1 == n.1 && jsonBeqF f m.2 n.2) ms ns = true ↔ ms = ns) := by
        intro ms
        induction ms with
        | nil => intro ns _; cases ns <;> simp [listBeqWith]
        | cons m ms ihm =>
          intro ns hs
          cases ns with
          | nil => simp [listBeqWith]
          | cons n ns =>
            obtain ⟨k, v⟩ := m
            obtain ⟨k', v'⟩ := n
            simp [listBeqWith, ih v v' (hs (k, v) (List.mem_cons_self (k, v) ms)),
              ihm ns (fun z hz => hs z (List.mem_cons_of_mem (k, v) hz)), and_assoc]
      intro a b h
      cases a <;> cases b <;> simp only [jsonBeqF] <;>
        first
        | (rename_i xs ys
           rw [hlist xs ys (fun x hx => by
             have h1 := hszL xs x hx
             simp only [jsize] at h
             omega)]
           simp)
        | (rename_i ms ns
           rw [hmem ms ns (fun m hm => by
             have h1 := hszM ms m hm
             simp only [jsize] at h
             omega)]
           simp)
        | simp
  decidable_of_iff (jsonBeqF (jsize a) a b = true) (key _ a b le_rfl)

/-! ## Lexical helpers -/

/-- JSON insignificant whitespace. -/
def isWsChar (c : Char) : Bool := c == ' ' || c == '\t' || c == '\n' || c == '\r'

/-- Drop leading whitespace. -/
def skipWs : List Char → List Char
  | c :: cs => if isWsChar c then skipWs cs else c :: cs
  | [] => []

/-- Decimal digit test, on the ten ASCII digit characters. -/
def isDigitChar (c : Char) : Bool := 48 ≤ c.toNat && c.toNat ≤ 57

/-- Value of a hexadecimal digit character. -/
def hexVal (c : Char) : Option Nat :=
  let n := c.toNat
  if 48 ≤ n ∧ n ≤ 57 then some (n - 48)
  else if 97 ≤ n ∧ n ≤ 102 then some (n - 87)
  else if 65 ≤ n ∧ n ≤ 70 then some (n - 55)
  else none

/-- Lower-case hexadecimal digit character of `n % 16`. -/
def hexDigitChar (n : Nat) : Char :=
  if n < 10 then Char.ofNat ('0'.toNat + n) else Char.ofNat ('a'.toNat + (n - 10))

/-- Named single-character escapes of the JSON grammar. -/
def escResolve : Char → Option Char
  | '"' => some '"'
  | '\\' => some '\\'
  | '/' => some '/'
  | 'b' => some (Char.ofNat 8)
  | 'f' => some (Char.ofNat 12)
  | 'n' => some '\n'
  | 'r' => some '\r'
  | 't' => some '\t'
  | _ => none

/-- Parse the body of a JSON string after the opening quote, returning
the decoded characters and the remainder after the closing quote.
Structural on the input; a `\u` escape must denote a valid scalar
value. -/
def parseStrBody : List Char → Option (List Char × List Char)
  | '"' :: rest => some ([], rest)
  | '\\' :: 'u' :: a :: b :: c :: d :: rest =>
    (do
      let va ← hexVal a
      let vb ← hexVal b
      let vc ← hexVal c
      let vd ← hexVal d
      let n := ((va * 16 + vb) * 16 + vc) * 16 + vd
      if h : n.isValidChar then
        let (cs, r) ← parseStrBody rest
        some (Char.ofNatAux n h :: cs, r)
      else none)
  | '\\' :: e :: rest =>
    (do
      let ch ← escResolve e
      let (cs, r) ← parseStrBody rest
      some (ch :: cs, r))
  | c :: rest =>
    if c.toNat < 32 then none
    else do
      let (cs, r) ← parseStrBody rest
      some (c :: cs, r)
  | [] => none

/-- Consume a run of decimal digits, accumulating their value. -/
def digitsAcc : List Char → Nat → Nat × List Char
  | c :: cs, acc =>
    if isDigitChar c then digitsAcc cs (acc * 10 + (c.toNat - '0'.toNat)) else (acc, c :: cs)
  | [], acc => (acc, [])

/-- Parse a nonempty digit run into a natural number. -/
def parseNatNum : List Char → Option (Nat × List Char)
  | c :: cs => if isDigitChar c then some (digitsAcc cs (c.toNat - '0'.toNat)) else none
  | [] => none

/-- Parse a JSON integer numeral: an optional minus sign then digits. -/
def parseIntNum : List Char → Option (Int × List Char)
  | [] => none
  | c :: cs =>
    if c = '-' then (parseNatNum cs).map (fun p => (-(p.1 : Int), p.2))
    else (parseNatNum (c :: cs)).map (fun p => ((p.1 : Int), p.2))

/-! ## JS object semantics -/

/-- Record a parsed member the way JS property assignment does: a
repeated key keeps its first position but takes the newest value. -/
def putMember : List (String × Json) → String → Json → List (String × Json)
  | [], k, v => [(k, v)]
  | (k', v') :: ms, k, v =>
    if k' = k then (k', v) :: ms else (k', v') :: putMember ms k v

/-- Object construction from a textual member list, later duplicates
overwriting earlier ones. -/
def collectMembers (ms : List (String × Json)) : List (String × Json) :=
  ms.foldl (fun acc m => putMember acc m.1 m.2) []

/-- JS property read: the value at a key of an object, if any. -/
def getField : Json → String → Option Json
  | .obj ms, k => (ms.find? (fun m => m.1 = k)).map (fun m => m.2)
  | _, _ => none

/-- JS truthiness of a JSON value: null, false, zero and the empty
string are falsy, everything else truthy. -/
def jsTruthy : Json → Bool
  | .null => false
  | .bool b => b
  | .num n => n != 0
  | .str s => s ≠ ""
  | .arr _ => true
  | .obj _ => true

/-- The JS `x.k || d` pattern: the field when present and truthy, the
default otherwise (a missing property reads as undefined, which is
falsy). -/
def jsOrField (o : Option Json) (d : Json) : Json :=
  match o with
  | some v => if jsTruthy v then v else d
  | none => d

/-! ## The JSON parser

Fuel-bounded recursive descent standing in for `JSON.parse`; a fuel of
one more than the input length is always enough, since every recursive
call works on a strictly shorter input.  Duplicate object keys follow
JS property assignment (`collectMembers`).  Leading zeros in numerals
are tolerated (the serializer never emits them). -/

mutual

/-- Parse one JSON value, returning it and the unconsumed remainder. -/
def parseVal : Nat → List Char → Option (Json × List Char)
  | 0, _ => none
  | f + 1, s =>
    match skipWs s with
    | [] => none
    | c :: cs =>
      if c = 'n' then
        match cs with
        | 'u' :: 'l' :: 'l' :: r => some (.null, r)
        | _ => none
      else if c = 't' then
        match cs with
        | 'r' :: 'u' :: 'e' :: r => some (.bool true, r)
        | _ => none
      else if c = 'f' then
        match cs with
        | 'a' :: 'l' :: 's' :: 'e' :: r => some (.bool false, r)
        | _ => none
      else if c = '"' then
        (parseStrBody cs).map (fun p => (.str ⟨p.1⟩, p.2))
      else if c = '[' then parseArrBody f (skipWs cs)
      else if c = '{' then parseObjBody f (skipWs cs)
      else if c = '-' ∨ isDigitChar c then
        (parseIntNum (c :: cs)).map (fun p => (.num p.1, p.2))
      else none

/-- The inside of an array, whitespace already skipped: the closing
bracket, or a first element and the tail. -/
def parseArrBody : Nat → List Char → Option (Json × List Char)
  | 0, _ => none
  | f + 1, s =>
    match s with
    | [] => none
    | c :: cs =>
      if c = ']' then some (.arr [], cs)
      else
        match parseVal f (c :: cs) with
        | some (v, r2) =>
          match parseArrTail f r2 with
          | some (vs, r3) => some (.arr (v :: vs), r3)
          | none => none
        | none => none

/-- After one array element: a comma and a further element, or the
closing bracket. -/
def parseArrTail : Nat → List Char → Option (List Json × List Char)
  | 0, _ => none
  | f + 1, s =>
    match skipWs s with
    | ',' :: r =>
      match parseVal f r with
      | some (v, r2) =>
        match parseArrTail f r2 with
        | some (vs, r3) => some (v :: vs, r3)
        | none => none
      | none => none
    | ']' :: r => some ([], r)
    | _ => none

/-- The inside of an object, whitespace already skipped: the closing
brace, or a first member and the tail, duplicates collapsing as JS
property assignment does. -/
def parseObjBody : Nat → List Char → Option (Json × List Char)
  | 0, _ => none
  | f + 1, s =>
    match s with
    | [] => none
    | c :: cs =>
      if c = '}' then some (.obj [], cs)
      else
        match parseMember f (c :: cs) with
        | some (k, v, r2) =>
          match parseObjTail f r2 with
          | some (ms, r3) => some (.obj (collectMembers ((k, v) :: ms)), r3)
          | none => none
        | none => none

/-- One `"key" : value` member. -/
def parseMember : Nat → List Char → Option (String × Json × List Char)
  | 0, _ => none
  | f + 1, s =>
    match skipWs s with
    | '"' :: r =>
      match parseStrBody r with
      | some (kcs, r1) =>
        match skipWs r1 with
        | ':' :: r2 =>
          match parseVal f r2 with
          | some (v, r3) => some (⟨kcs⟩, v, r3)
          | none => none
        | _ => none
      | none => none
    | _ => none

/-- After one object member: a comma and a further member, or the
closing brace. -/
def parseObjTail : Nat → List Char → Option (List (String × Json) × List Char)
  | 0, _ => none
  | f + 1, s =>
    match skipWs s with
    | ',' :: r =>
      match parseMember f r with
      | some (k, v, r2) =>
        match parseObjTail f r2 with
        | some (ms, r3) => some ((k, v) :: ms, r3)
        | none => none
      | none => none
    | '}' :: r => some ([], r)
    | _ => none

end

/-- `JSON.parse`: a complete document is one value with only whitespace
after it; anything else is a parse error (`none`). -/
def jsonParse (s : String) : Option Json :=
  match parseVal (s.toList.length + 1) s.toList with
  | some (v, r) => if skipWs r = [] then some v else none
  | none => none

/-! ## The JSON serializer -/

/-- One character of a string body, escaped as `JSON.stringify` does:
quote, backslash and the named control characters get two-character
escapes, other control characters a `\u00..` escape, everything else
stands for itself. -/
def escChar (c : Char) : List Char :=
  if c = '"' then ['\\', '"']
  else if c = '\\' then ['\\', '\\']
  else if c = Char.ofNat 8 then ['\\', 'b']
  else if c = Char.ofNat 12 then ['\\', 'f']
  else if c = '\n' then ['\\', 'n']
  else if c = '\r' then ['\\', 'r']
  else if c = '\t' then ['\\', 't']
  else if c.toNat < 32 then
    let hi := hexDigitChar (c.toNat / 16)
    let lo := hexDigitChar (c.toNat % 16)
    '\\' :: 'u' :: '0' :: '0' :: hi :: [lo]
  else [c]

/-- A rendered string literal: quoted, body escaped. -/
def renderStr (s : String) : List Char :=
  '"' :: (s.toList.flatMap escChar ++ ['"'])

/-- Decimal digit characters of a positive number, most significant
first; structural on a fuel that the number of digits never exceeds. -/
def natChars : Nat → Nat → List Char
  | 0, _ => []
  | f + 1, n =>
    if n = 0 then [] else natChars f (n / 10) ++ [Char.ofNat ('0'.toNat + n % 10)]

/-- Decimal rendering of an integer, as `JSON.stringify` prints the
integral numbers this model covers. -/
def renderInt (i : Int) : List Char :=
  if i = 0 then ['0']
  else (if i < 0 then ['-'] else []) ++ natChars i.natAbs i.natAbs

mutual

/-- Render a JSON value, as `JSON.stringify` does (no added
whitespace). -/
def renderJson : Json → List Char
  | .null => 'n' :: ['u', 'l', 'l']
  | .bool true => 't' :: ['r', 'u', 'e']
  | .bool false => 'f' :: ['a', 'l', 's', 'e']
  | .num n => renderInt n
  | .str s => renderStr s
  | .arr [] => ['[', ']']
  | .arr (x :: xs) => '[' :: (renderJson x ++ renderArrRest xs ++ [']'])
  | .obj [] => ['{', '}']
  | .obj (m :: ms) => '{' :: (renderMem m ++ renderObjRest ms ++ ['}'])

/-- The later elements of an array, each behind its comma. -/
def renderArrRest : List Json → List Char
  | [] => []
  | x :: xs => ',' :: (renderJson x ++ renderArrRest xs)

/-- One rendered `"key":value` member. -/
def renderMem : String × Json → List Char
  | (k, v) => renderStr k ++ ':' :: renderJson v

/-- The later members of an object, each behind its comma. -/
def renderObjRest : List (String × Json) → List Char
  | [] => []
  | m :: ms => ',' :: (renderMem m ++ renderObjRest ms)

end

/-- `JSON.stringify` on the modelled values. -/
def jsonStringify (v : Json) : String := ⟨renderJson v⟩

/-! ## The regex extraction

The classifier and the digest generator both run
`text.match(<regex lbrace, any chars, rbrace>)` with a greedy middle:
the engine scans for the leftmost start, an opening brace with some
closing brace after it, and the greedy star then extends the match to
the last closing brace of the whole text. -/

/-- The prefix of the input up to and including its last closing brace,
if it has one. -/
def upToLastRBrace : List Char → Option (List Char)
  | [] => none
  | c :: cs =>
    match upToLastRBrace cs with
    | some r => some (c :: r)
    | none => if c = '}' then some [c] else none

/-- The match of the greedy brace regex on a character list: from the
first opening brace that some closing brace follows, through the last
closing brace. -/
def braceMatch : List Char → Option (List Char)
  | [] => none
  | c :: cs =>
    if c = '{' then
      match upToLastRBrace cs with
      | some r => some ('{' :: r)
      | none => braceMatch cs
    else braceMatch cs

/-- String form of the greedy brace-regex match, as
`text.match(...)` produces it. -/
def braceMatchStr (s : String) : Option String :=
  (braceMatch s.toList).map (fun cs => ⟨cs⟩)

/-! ## The classifier

The inference endpoint is an arbitrary function from the prompt to an
outcome: an error (the model call threw) or the raw response text. -/

mutual

/-- JS string coercion of a value, as template interpolation applies
it; array elements join with commas, null elements joining as empty. -/
def jsDisplay : Json → String
  | .null => "null"
  | .bool true => "true"
  | .bool false => "false"
  | .num n => ⟨renderInt n⟩
  | .str s => s
  | .arr xs => jsDisplayList xs
  | .obj _ => "[object Object]"

/-- Array-join part of `jsDisplay`. -/
def jsDisplayList : List Json → String
  | [] => ""
  | [.null] => ""
  | [x] => jsDisplay x
  | .null :: xs => "," ++ jsDisplayList xs
  | x :: xs => jsDisplay x ++ "," ++ jsDisplayList xs

end

/-- The fixed classification prompt built around the feedback text. -/
def analysePrompt (content : String) : String :=
  "Analyse this customer feedback and respond with ONLY a JSON object (no markdown, no explanation):\n\x7b\n  \"sentiment\": \"positive\" or \"negative\" or \"neutral\",\n  \"urgency\": \"high\" or \"medium\" or \"low\",\n  \"themes\": \"comma-separated list of 1-3 themes like: performance, billing, documentation, feature-request, bug, praise\"\n\x7d\n\nFeedback: \"" ++ content ++ "\""

/-- The classification triple as `analyseFeedback` returns it; the
TypeScript annotation says strings, but the values are whatever the
parsed model output held. -/
structure Analysis where
  sentiment : Json
  urgency : Json
  themes : Json
deriving DecidableEq, Repr

/-- The fixed fallback classification. -/
def fallbackAnalysis : Analysis :=
  { sentiment := .str "neutral", urgency := .str "medium", themes := .str "general" }

/-- The object recovered from a model-call outcome: none when the call
errored, the response contains no brace-regex match, or the matched
substring fails to parse. -/
def parsedObjOf (out : Except String String) : Option Json :=
  match out with
  | .error _ => none
  | .ok text =>
    match braceMatchStr text with
    | none => none
    | some j => jsonParse j

/-- The classification computed from a model-call outcome: the caught
failure paths yield the fallback, a parsed object yields its fields
under the JS `|| default` pattern. -/
def analyseOutcome (out : Except String String) : Analysis :=
  match parsedObjOf out with
  | none => fallbackAnalysis
  | some parsed =>
    { sentiment := jsOrField (getField parsed "sentiment") (.str "neutral")
      urgency := jsOrField (getField parsed "urgency") (.str "medium")
      themes := jsOrField (getField parsed "themes") (.str "general") }

/-- `analyseFeedback`: build the prompt, invoke the model, recover the
triple; never raises (every failure path is caught). -/
def analyseFeedback (ai : String → Except String String) (content : String) : Analysis :=
  analyseOutcome (ai (analysePrompt content))

/-! ## The store

Rows as the two tables hold them; a cell holds the JSON value it was
bound (a missing JS property binds as JSON null here: the store is the
external collaborator of the design contract and is modelled total).
`created_at` timestamps are naturals, ids are the autoincrement
counters. -/

/-- A row of the `feedback` table. -/
structure FeedbackRow where
  id : Nat
  source : String
  content : String
  author : Option String
  sentiment : Json
  urgency : Json
  themes : Json
  created_at : Nat
  processed_at : Option Nat
deriving DecidableEq, Repr

/-- A row of the `digests` table; the three aggregate columns hold the
serialized JSON text they were bound. -/
structure DigestRow where
  id : Nat
  summary : Json
  top_themes : String
  urgent_items : String
  sentiment_breakdown : String
  feedback_count : Nat
  created_at : Nat
deriving DecidableEq, Repr

/-- The persistent state: both tables plus their autoincrement
counters. -/
structure Db where
  feedback : List FeedbackRow
  digests : List DigestRow
  nextFeedbackId : Nat
  nextDigestId : Nat
deriving DecidableEq, Repr

/-- What a handler invocation produces: the HTTP status, the JSON
response body, the successor state, and how many model calls were
made. -/
structure HandlerResult where
  status : Nat
  body : Json
  db : Db
  aiCalls : Nat
deriving DecidableEq, Repr

/-- JS falsiness of an optional string field of a request body:
absent, or present and empty. -/
def strFalsy : Option String → Bool
  | none => true
  | some s => s = ""

/-- Insert a row into a list sorted by `created_at` descending, after
every row whose timestamp is not smaller: rows already present came
first in scan order, so a tie keeps them in front. -/
def insertByCreatedDesc (r : FeedbackRow) : List FeedbackRow → List FeedbackRow
  | [] => [r]
  | x :: xs =>
    if r.created_at > x.created_at then r :: x :: xs else x :: insertByCreatedDesc r xs

/-- `SELECT * FROM feedback ORDER BY created_at DESC`: a stable
descending sort of the scan (insertion) order, which is how the SQLite
sorter orders rows (it appends a scan-order sequence number to equal
keys). -/
def sortFeedbackDesc (rows : List FeedbackRow) : List FeedbackRow :=
  rows.foldl (fun acc r => insertByCreatedDesc r acc) []

/-- `SELECT * FROM digests ORDER BY created_at DESC LIMIT 1` then
`.first()`: the row with the greatest `created_at`; among equal
timestamps the sorter is stable in scan order, so the earliest-inserted
of the ties is the one returned. -/
def latestDigest : List DigestRow → Option DigestRow
  | [] => none
  | d :: ds =>
    match latestDigest ds with
    | none => some d
    | some e => some (if e.created_at > d.created_at then e else d)

/-! ## Route handlers -/

/-- The body of a `POST /api/feedback` request. -/
structure AddBody where
  source : Option String
  content : Option String
  author : Option String
deriving DecidableEq, Repr

/-- A JSON error body. -/
def errBody (msg : String) : Json := .obj [("error", .str msg)]

/-- `handleAddFeedback`: reject a falsy source or content with 400 and
no model call; otherwise classify synchronously and insert exactly one
row, echoing the generated id and the analysis. -/
def handleAddFeedback (ai : String → Except String String) (db : Db) (now : Nat)
    (body : AddBody) : HandlerResult :=
  if strFalsy body.source || strFalsy body.content then
    { status := 400, body := errBody "source and content are required", db := db, aiCalls := 0 }
  else
    let s := body.source.getD ""
    let c := body.content.getD ""
    let analysis := analyseFeedback ai c
    let row : FeedbackRow :=
      { id := db.nextFeedbackId
        source := s
        content := c
        author := if strFalsy body.author then none else body.author
        sentiment := analysis.sentiment
        urgency := analysis.urgency
        themes := analysis.themes
        created_at := now
        processed_at := some now }
    { status := 200
      body := .obj [("success", .bool true), ("id", .num db.nextFeedbackId),
        ("analysis", .obj [("sentiment", analysis.sentiment), ("urgency", analysis.urgency),
          ("themes", analysis.themes)])]
      db := { db with feedback := db.feedback ++ [row], nextFeedbackId := db.nextFeedbackId + 1 }
      aiCalls := 1 }

/-- One line of the digest prompt:
`[source] (sentiment, urgency urgency): content`. -/
def feedbackLine (f : FeedbackRow) : String :=
  "[" ++ f.source ++ "] (" ++ jsDisplay f.sentiment ++ ", " ++ jsDisplay f.urgency
    ++ " urgency): " ++ f.content

/-- The rows a digest considers: the 50 most recently created. -/
def recentFeedback (db : Db) : List FeedbackRow :=
  (sortFeedbackDesc db.feedback).take 50

/-- The fixed digest prompt around the joined feedback lines. -/
def digestPrompt (rows : List FeedbackRow) : String :=
  "You are a product manager assistant. Analyse this customer feedback and create a daily digest.\n\nFEEDBACK:\n"
    ++ String.intercalate "\n" (rows.map feedbackLine)
    ++ "\n\nCreate a digest with these sections. Respond with ONLY a JSON object:\n\x7b\n  \"summary\": \"2-3 sentence executive summary of today's feedback\",\n  \"top_themes\": [\"theme1: count and brief description\", \"theme2: count and brief description\", \"theme3: count and brief description\"],\n  \"urgent_items\": [\"brief description of urgent item 1\", \"brief description of urgent item 2\"],\n  \"sentiment_breakdown\": \x7b\"positive\": number, \"neutral\": number, \"negative\": number\x7d,\n  \"recommendations\": [\"actionable recommendation 1\", \"actionable recommendation 2\"]\n\x7d"

/-- The default digest payload, in place until a parse succeeds. -/
def defaultDigestData : Json :=
  .obj [("summary", .str "Unable to generate summary"),
    ("top_themes", .arr []),
    ("urgent_items", .arr []),
    ("sentiment_breakdown", .obj [("positive", .num 0), ("neutral", .num 0), ("negative", .num 0)]),
    ("recommendations", .arr [])]

/-- A property read at the store boundary: a missing JS property is
modelled as JSON null. -/
def fieldOrNull (o : Json) (k : String) : Json := (getField o k).getD .null

/-- `handleGenerateDigest`: 400 and no model call over an empty
feedback table; otherwise one model call over the 50 most recent rows,
the parsed payload (or the default on any failure) serialized into
exactly one new digest row. -/
def handleGenerateDigest (ai : String → Except String String) (db : Db) (now : Nat) :
    HandlerResult :=
  let recent := recentFeedback db
  if recent.isEmpty then
    { status := 400, body := errBody "No feedback to analyse", db := db, aiCalls := 0 }
  else
    let outcome := ai (digestPrompt recent)
    let digestData := (parsedObjOf outcome).getD defaultDigestData
    let row : DigestRow :=
      { id := db.nextDigestId
        summary := fieldOrNull digestData "summary"
        top_themes := jsonStringify (fieldOrNull digestData "top_themes")
        urgent_items := jsonStringify (fieldOrNull digestData "urgent_items")
        sentiment_breakdown := jsonStringify (fieldOrNull digestData "sentiment_breakdown")
        feedback_count := recent.length
        created_at := now }
    { status := 200
      body := .obj [("success", .bool true), ("digest", digestData),
        ("feedback_count", .num recent.length)]
      db := { db with digests := db.digests ++ [row], nextDigestId := db.nextDigestId + 1 }
      aiCalls := 1 }

/-- The JS `s || d` pattern on the stored text columns. -/
def jsOrStr (s d : String) : String := if s = "" then d else s

/-- `handleGetDigest`: 404 when no digest was ever generated; otherwise
the latest row with its three serialized columns decoded again (a
decode failure would escape to the router boundary as a 500). -/
def handleGetDigest (db : Db) : HandlerResult :=
  match latestDigest db.digests with
  | none =>
    { status := 404, body := errBody "No digest available. Generate one first.", db := db,
      aiCalls := 0 }
  | some row =>
    match jsonParse (jsOrStr row.top_themes "[]"), jsonParse (jsOrStr row.urgent_items "[]"),
        jsonParse (jsOrStr row.sentiment_breakdown "\x7b\x7d") with
    | some t, some u, some sb =>
      { status := 200
        body := .obj [("id", .num row.id), ("summary", row.summary), ("top_themes", t),
          ("urgent_items", u), ("sentiment_breakdown", sb),
          ("feedback_count", .num row.feedback_count), ("created_at", .num row.created_at)]
        db := db
        aiCalls := 0 }
    | _, _, _ =>
      { status := 500, body := errBody "Internal Server Error", db := db, aiCalls := 0 }

/-! ## Predicates and spec-side definitions the claims mention -/

/-- The failure condition every caught classification path shares: the
model call errored, no brace-regex match exists, or the match fails to
parse. -/
def analysisFailed (out : Except String String) : Bool := (parsedObjOf out).isNone

/-- The documented sentiment enumeration. -/
def sentimentEnum : List Json := [.str "positive", .str "neutral", .str "negative"]

/-- The documented urgency enumeration. -/
def urgencyEnum : List Json := [.str "high", .str "medium", .str "low"]

/-- Whether a model outcome keeps a classification field inside an
enumeration: vacuously on any failure path, and otherwise whenever the
field is absent, falsy, or itself a member. -/
def fieldEnumOk (out : Except String String) (key : String) (enum : List Json) : Bool :=
  match parsedObjOf out with
  | none => true
  | some o =>
    match getField o key with
    | none => true
    | some v => !jsTruthy v || decide (v ∈ enum)

/-- Modelled from the claim wording of C2: on failure the default
triple; on parse success each of the three fields is taken whenever it
is present, the default substituted only for a missing field. -/
def claimAnalyse (out : Except String String) : Analysis :=
  match parsedObjOf out with
  | none => fallbackAnalysis
  | some o =>
    { sentiment := (getField o "sentiment").getD (.str "neutral")
      urgency := (getField o "urgency").getD (.str "medium")
      themes := (getField o "themes").getD (.str "general") }

/-- The field discipline the code actually implements: the result `r`
for a field `k` of the parsed object is the parsed value exactly when
present and truthy, and the default `d` when the field is missing or
falsy. -/
def takesFieldOrDefault (o : Json) (k : String) (d r : Json) : Prop :=
  (getField o k = none ∧ r = d)
  ∨ (∃ v, getField o k = some v ∧ jsTruthy v = false ∧ r = d)
  ∨ (∃ v, getField o k = some v ∧ jsTruthy v = true ∧ r = v)

/-- Well-formedness of a JSON value for the serialization round trip:
object keys are duplicate-free, recursively.  Every value
`JSON.parse` produces satisfies it; the service writes only such
values. -/
inductive JsonWf : Json → Prop where
  | null : JsonWf .null
  | bool (b : Bool) : JsonWf (.bool b)
  | num (n : Int) : JsonWf (.num n)
  | str (s : String) : JsonWf (.str s)
  | arr (xs : List Json) : (∀ x ∈ xs, JsonWf x) → JsonWf (.arr xs)
  | obj (ms : List (String × Json)) : (ms.map Prod.fst).Nodup →
      (∀ m ∈ ms, JsonWf m.2) → JsonWf (.obj ms)

/-- A remainder that cannot extend a numeral: empty or headed by a
non-digit (every JSON delimiter qualifies). -/
def notDigitHead : List Char → Bool
  | [] => true
  | c :: _ => !isDigitChar c

/-! ## Concrete fixtures for witnesses and counterexamples -/

/-- An inference endpoint whose call always fails. -/
def aiDown : String → Except String String := fun _ => .error "model unreachable"

/-- An endpoint answering with two JSON objects side by side. -/
def aiTwoObjects : String → Except String String :=
  fun _ => .ok "\x7b\"sentiment\":\"positive\"\x7d\x7b\"x\":0\x7d"

/-- An endpoint answering with a present but empty sentiment field. -/
def aiEmptySentiment : String → Except String String :=
  fun _ => .ok "\x7b\"sentiment\":\"\",\"urgency\":\"high\",\"themes\":\"performance\"\x7d"

/-- An endpoint answering with values outside both enumerations. -/
def aiOffEnum : String → Except String String :=
  fun _ => .ok "\x7b\"sentiment\":\"happy\",\"urgency\":\"asap\",\"themes\":\"praise\"\x7d"

/-- An endpoint answering with enumeration values. -/
def aiNegative : String → Except String String :=
  fun _ => .ok "\x7b\"sentiment\":\"negative\",\"urgency\":\"medium\",\"themes\":\"performance\"\x7d"

/-- The empty store. -/
def dbEmpty : Db := { feedback := [], digests := [], nextFeedbackId := 1, nextDigestId := 1 }

/-- A well-formed request body. -/
def sampleBody : AddBody :=
  { source := some "discord", content := some "Deploys are too slow", author := none }

/-- One classified feedback row. -/
def sampleRow : FeedbackRow :=
  { id := 1, source := "discord", content := "Deploys are too slow", author := none,
    sentiment := .str "negative", urgency := .str "medium", themes := .str "performance",
    created_at := 3, processed_at := some 3 }

/-- A store holding one feedback row. -/
def dbOne : Db := { feedback := [sampleRow], digests := [], nextFeedbackId := 2, nextDigestId := 1 }

/-- A digest row inserted first. -/
def digestRowA : DigestRow :=
  { id := 1, summary := .str "first digest", top_themes := "[]", urgent_items := "[]",
    sentiment_breakdown := "\x7b\x7d", feedback_count := 1, created_at := 100 }

/-- A digest row inserted second, in the same timestamp second. -/
def digestRowB : DigestRow :=
  { id := 2, summary := .str "second digest", top_themes := "[]", urgent_items := "[]",
    sentiment_breakdown := "\x7b\x7d", feedback_count := 1, created_at := 100 }

/-- A store whose two digests tie on `created_at`. -/
def dbTie : Db :=
  { feedback := [], digests := [digestRowA, digestRowB], nextFeedbackId := 1, nextDigestId := 3 }

/-! # Theorems -/

/-! ## Shared lemmas -/

theorem jsOrField_ne_null (o : Option Json) (d : Json) (hd : d ≠ .null) :
    jsOrField o d ≠ .null := by
  match o with
  | none => exact hd
  | some v =>
    simp only [jsOrField]
    split
    · rename_i hv
      intro h
      rw [h] at hv
      simp [jsTruthy] at hv
    · exact hd

theorem analyseOutcome_of_failed {out : Except String String}
    (h : analysisFailed out = true) : analyseOutcome out = fallbackAnalysis := by
  simp only [analysisFailed, Option.isNone_iff_eq_none] at h
  simp [analyseOutcome, h]

theorem analyseOutcome_of_parsed {out : Except String String} {o : Json}
    (h : parsedObjOf out = some o) :
    analyseOutcome out =
      { sentiment := jsOrField (getField o "sentiment") (.str "neutral")
        urgency := jsOrField (getField o "urgency") (.str "medium")
        themes := jsOrField (getField o "themes") (.str "general") } := by
  simp [analyseOutcome, h]

theorem length_insertByCreatedDesc (r : FeedbackRow) (l : List FeedbackRow) :
    (insertByCreatedDesc r l).length = l.length + 1 := by
  induction l with
  | nil => rfl
  | cons x xs ih =>
    simp only [insertByCreatedDesc]
    split
    · simp
    · simp [ih]

theorem length_sortFeedbackDesc (rows : List FeedbackRow) :
    (sortFeedbackDesc rows).length = rows.length := by
  suffices h : ∀ acc : List FeedbackRow,
      (rows.foldl (fun a r => insertByCreatedDesc r a) acc).length = acc.length + rows.length by
    simpa using h []
  induction rows with
  | nil => intro acc; simp
  | cons r rs ih =>
    intro acc
    simp only [List.foldl_cons, ih, length_insertByCreatedDesc, List.length_cons]
    omega

theorem length_recentFeedback (db : Db) :
    (recentFeedback db).length = min 50 db.feedback.length := by
  simp [recentFeedback, length_sortFeedbackDesc]

theorem recentFeedback_ne_nil {db : Db} (h : db.feedback ≠ []) :
    recentFeedback db ≠ [] := by
  intro hrec
  have hl := length_recentFeedback db
  rw [hrec] at hl
  have : db.feedback.length = 0 := by
    rcases Nat.eq_zero_of_le_zero (le_of_eq hl.symm) with h0
    omega
  exact h (List.length_eq_zero.mp this)

theorem isEmpty_eq_false_of_ne_nil {α : Type} {l : List α} (h : l ≠ []) :
    l.isEmpty = false := by
  cases l with
  | nil => exact absurd rfl h
  | cons x xs => rfl

/-! ## Claim C3 -/

/-- Claim C3: a `POST /api/feedback` body missing source or content
(including the empty string for either) gets a 400, leaves the store
unchanged, and triggers no model call. -/
theorem addFeedback_rejects_falsy_fields (ai : String → Except String String)
    (db : Db) (now : Nat) (b : AddBody)
    (h : (b.source = none ∨ b.source = some "") ∨ (b.content = none ∨ b.content = some "")) :
    (handleAddFeedback ai db now b).status = 400
    ∧ (handleAddFeedback ai db now b).db = db
    ∧ (handleAddFeedback ai db now b).aiCalls = 0
    ∧ (handleAddFeedback ai db now b).body = errBody "source and content are required" := by
  have hfalsy : (strFalsy b.source || strFalsy b.content) = true := by
    rcases h with h | h <;> rcases h with h | h <;> simp [h, strFalsy]
  simp [handleAddFeedback, hfalsy]

/-- Witness for C3 at a concrete empty-content body. -/
theorem addFeedback_rejects_falsy_fields_witness :
    (((⟨some "discord", some "", none⟩ : AddBody).source = none
        ∨ (⟨some "discord", some "", none⟩ : AddBody).source = some "")
      ∨ ((⟨some "discord", some "", none⟩ : AddBody).content = none
        ∨ (⟨some "discord", some "", none⟩ : AddBody).content = some ""))
    ∧ ((handleAddFeedback aiDown dbEmpty 0 ⟨some "discord", some "", none⟩).status = 400
      ∧ (handleAddFeedback aiDown dbEmpty 0 ⟨some "discord", some "", none⟩).db = dbEmpty
      ∧ (handleAddFeedback aiDown dbEmpty 0 ⟨some "discord", some "", none⟩).aiCalls = 0) := by
  have h := addFeedback_rejects_falsy_fields aiDown dbEmpty 0
    ⟨some "discord", some "", none⟩ (by right; right; rfl)
  exact ⟨by right; right; rfl, h.1, h.2.1, h.2.2.1⟩

/-! ## Claim C4 -/

/-- Claim C4: digest generation over an empty feedback table answers
400 with an error body, persists nothing, and makes no model call. -/
theorem generateDigest_empty_rejected (ai : String → Except String String)
    (db : Db) (now : Nat) (h : db.feedback = []) :
    (handleGenerateDigest ai db now).status = 400
    ∧ (handleGenerateDigest ai db now).body = errBody "No feedback to analyse"
    ∧ (handleGenerateDigest ai db now).db = db
    ∧ (handleGenerateDigest ai db now).aiCalls = 0 := by
  have hrec : recentFeedback db = [] := by
    simp [recentFeedback, sortFeedbackDesc, h]
  simp [handleGenerateDigest, hrec]

/-- Witness for C4 at the empty store. -/
theorem generateDigest_empty_rejected_witness :
    dbEmpty.feedback = []
    ∧ (handleGenerateDigest aiDown dbEmpty 0).status = 400
    ∧ (handleGenerateDigest aiDown dbEmpty 0).db = dbEmpty
    ∧ (handleGenerateDigest aiDown dbEmpty 0).aiCalls = 0 := by
  have h := generateDigest_empty_rejected aiDown dbEmpty 0 rfl
  exact ⟨rfl, h.1, h.2.2.1, h.2.2.2⟩

/-! ## Claim C5 -/

/-- Claim C5: digest generation over `N ≥ 1` feedback rows persists
exactly one digest row, whose `feedback_count` is `N` for `N ≤ 50`
and `50` beyond that (only the 50 most recent rows are considered);
the feedback table is untouched. -/
theorem generateDigest_persists_one_row (ai : String → Except String String)
    (db : Db) (now : Nat) (h : 1 ≤ db.feedback.length) :
    ∃ row : DigestRow,
      (handleGenerateDigest ai db now).db.digests = db.digests ++ [row]
      ∧ row.feedback_count = min db.feedback.length 50
      ∧ (handleGenerateDigest ai db now).db.feedback = db.feedback
      ∧ (handleGenerateDigest ai db now).status = 200 := by
  have hne : db.feedback ≠ [] := by
    intro h0
    rw [h0] at h
    simp at h
  have hempty : (recentFeedback db).isEmpty = false :=
    isEmpty_eq_false_of_ne_nil (recentFeedback_ne_nil hne)
  simp only [handleGenerateDigest, hempty, Bool.false_eq_true, if_false]
  refine ⟨_, rfl, ?_, trivial, trivial⟩
  simp [length_recentFeedback, Nat.min_comm]

/-- Witness for C5 over the one-row store. -/
theorem generateDigest_persists_one_row_witness :
    1 ≤ dbOne.feedback.length
    ∧ ∃ row : DigestRow,
        (handleGenerateDigest aiDown dbOne 7).db.digests = dbOne.digests ++ [row]
        ∧ row.feedback_count = min dbOne.feedback.length 50
        ∧ (handleGenerateDigest aiDown dbOne 7).db.feedback = dbOne.feedback
        ∧ (handleGenerateDigest aiDown dbOne 7).status = 200 :=
  ⟨by decide, generateDigest_persists_one_row aiDown dbOne 7 (by decide)⟩

/-! ## Claim C1 -/

/-- Claim C1: a `POST /api/feedback` submission with non-empty source
and content persists exactly one feedback row, that row's
sentiment/urgency/themes are never null, and whenever the model call
fails or its output is unparseable the fallback triple
neutral/medium/general is what gets stored. -/
theorem addFeedback_persists_classified_row (ai : String → Except String String)
    (db : Db) (now : Nat) (b : AddBody) (s c : String)
    (hs : b.source = some s) (hc : b.content = some c) (hs' : s ≠ "") (hc' : c ≠ "") :
    ∃ row : FeedbackRow,
      (handleAddFeedback ai db now b).db.feedback = db.feedback ++ [row]
      ∧ (handleAddFeedback ai db now b).db.digests = db.digests
      ∧ row.sentiment ≠ Json.null ∧ row.urgency ≠ Json.null ∧ row.themes ≠ Json.null
      ∧ (analysisFailed (ai (analysePrompt c)) = true →
          row.sentiment = Json.str "neutral" ∧ row.urgency = Json.str "medium"
            ∧ row.themes = Json.str "general") := by
  have hsf : strFalsy (some s) = false := by simp [strFalsy, hs']
  have hcf : strFalsy (some c) = false := by simp [strFalsy, hc']
  simp only [handleAddFeedback, hs, hc, hsf, hcf, Bool.or_self, Bool.false_eq_true, if_false,
    Option.getD_some]
  refine ⟨_, rfl, by simp, ?_, ?_, ?_, ?_⟩
  · cases hout : parsedObjOf (ai (analysePrompt c)) with
    | none => simp [analyseFeedback, analyseOutcome, hout, fallbackAnalysis]
    | some o =>
      simp only [analyseFeedback, analyseOutcome, hout]
      exact jsOrField_ne_null _ _ (by simp)
  · cases hout : parsedObjOf (ai (analysePrompt c)) with
    | none => simp [analyseFeedback, analyseOutcome, hout, fallbackAnalysis]
    | some o =>
      simp only [analyseFeedback, analyseOutcome, hout]
      exact jsOrField_ne_null _ _ (by simp)
  · cases hout : parsedObjOf (ai (analysePrompt c)) with
    | none => simp [analyseFeedback, analyseOutcome, hout, fallbackAnalysis]
    | some o =>
      simp only [analyseFeedback, analyseOutcome, hout]
      exact jsOrField_ne_null _ _ (by simp)
  · intro hf
    have hnone : parsedObjOf (ai (analysePrompt c)) = none := by
      simpa [analysisFailed, Option.isNone_iff_eq_none] using hf
    simp [analyseFeedback, analyseOutcome, hnone, fallbackAnalysis]

/-- Witness for C1: a valid submission against a failing model. -/
theorem addFeedback_persists_classified_row_witness :
    (sampleBody.source = some "discord" ∧ sampleBody.content = some "Deploys are too slow"
      ∧ "discord" ≠ "" ∧ "Deploys are too slow" ≠ "")
    ∧ ∃ row : FeedbackRow,
        (handleAddFeedback aiDown dbEmpty 9 sampleBody).db.feedback = dbEmpty.feedback ++ [row]
        ∧ (handleAddFeedback aiDown dbEmpty 9 sampleBody).db.digests = dbEmpty.digests
        ∧ row.sentiment ≠ Json.null ∧ row.urgency ≠ Json.null ∧ row.themes ≠ Json.null
        ∧ (analysisFailed (aiDown (analysePrompt "Deploys are too slow")) = true →
            row.sentiment = Json.str "neutral" ∧ row.urgency = Json.str "medium"
              ∧ row.themes = Json.str "general") :=
  ⟨⟨rfl, rfl, by decide, by decide⟩,
    addFeedback_persists_classified_row aiDown dbEmpty 9 sampleBody "discord"
      "Deploys are too slow" rfl rfl (by decide) (by decide)⟩

/-! ## Claim C10 -/

/-- Counterexample to C10: a model response with sentiment `happy` and
urgency `asap` is stored verbatim; neither value is in its claimed
enumeration, so the stored values are not enum members regardless of
the model text. -/
theorem addFeedback_stores_offenum_values :
    ((handleAddFeedback aiOffEnum dbEmpty 5 sampleBody).db.feedback.map
        (fun r => (r.sentiment, r.urgency)))
      = [(Json.str "happy", Json.str "asap")]
    ∧ Json.str "happy" ∉ sentimentEnum ∧ Json.str "asap" ∉ urgencyEnum := by decide

theorem analyseOutcome_field_enum (out : Except String String) (key : String)
    (enum : List Json) (d : Json) (hd : d ∈ enum)
    (hok : fieldEnumOk out key enum = true) :
    (match parsedObjOf out with
      | none => d
      | some o => jsOrField (getField o key) d) ∈ enum := by
  cases hout : parsedObjOf out with
  | none => exact hd
  | some o =>
    simp only [fieldEnumOk, hout] at hok
    cases hf : getField o key with
    | none => simpa [jsOrField, hf] using hd
    | some v =>
      rw [hf] at hok
      cases ht : jsTruthy v with
      | false => simpa [jsOrField, hf, ht] using hd
      | true =>
        have hv : v ∈ enum := by
          simp only [ht, Bool.not_true, Bool.false_or, decide_eq_true_eq] at hok
          exact hok
        simpa [jsOrField, hf, ht] using hv

/-- Claim C10 amended: the code stores the model-supplied sentiment and
urgency verbatim, without validating the enumerations; the stored
values are guaranteed inside them only when the model field is absent,
falsy, or itself an enum value (which the fallback and default paths
always are). -/
theorem addFeedback_enum_conditional (ai : String → Except String String)
    (db : Db) (now : Nat) (b : AddBody) (s c : String)
    (hs : b.source = some s) (hc : b.content = some c) (hs' : s ≠ "") (hc' : c ≠ "")
    (hok1 : fieldEnumOk (ai (analysePrompt c)) "sentiment" sentimentEnum = true)
    (hok2 : fieldEnumOk (ai (analysePrompt c)) "urgency" urgencyEnum = true) :
    ∃ row : FeedbackRow,
      (handleAddFeedback ai db now b).db.feedback = db.feedback ++ [row]
      ∧ row.sentiment ∈ sentimentEnum ∧ row.urgency ∈ urgencyEnum := by
  have hsf : strFalsy (some s) = false := by simp [strFalsy, hs']
  have hcf : strFalsy (some c) = false := by simp [strFalsy, hc']
  simp only [handleAddFeedback, hs, hc, hsf, hcf, Bool.or_self, Bool.false_eq_true, if_false,
    Option.getD_some]
  refine ⟨_, rfl, ?_, ?_⟩
  · have h := analyseOutcome_field_enum (ai (analysePrompt c)) "sentiment" sentimentEnum
      (.str "neutral") (by decide) hok1
    cases hout : parsedObjOf (ai (analysePrompt c)) with
    | none =>
      rw [hout] at h
      simpa [analyseFeedback, analyseOutcome, hout, fallbackAnalysis] using h
    | some o =>
      rw [hout] at h
      simpa [analyseFeedback, analyseOutcome, hout] using h
  · have h := analyseOutcome_field_enum (ai (analysePrompt c)) "urgency" urgencyEnum
      (.str "medium") (by decide) hok2
    cases hout : parsedObjOf (ai (analysePrompt c)) with
    | none =>
      rw [hout] at h
      simpa [analyseFeedback, analyseOutcome, hout, fallbackAnalysis] using h
    | some o =>
      rw [hout] at h
      simpa [analyseFeedback, analyseOutcome, hout] using h

/-- Witness for the amended C10: an enum-valued model response keeps
the stored values inside the enumerations. -/
theorem addFeedback_enum_conditional_witness :
    (sampleBody.source = some "discord" ∧ sampleBody.content = some "Deploys are too slow"
      ∧ fieldEnumOk (aiNegative (analysePrompt "Deploys are too slow")) "sentiment"
          sentimentEnum = true
      ∧ fieldEnumOk (aiNegative (analysePrompt "Deploys are too slow")) "urgency"
          urgencyEnum = true)
    ∧ ∃ row : FeedbackRow,
        (handleAddFeedback aiNegative dbEmpty 5 sampleBody).db.feedback
          = dbEmpty.feedback ++ [row]
        ∧ row.sentiment ∈ sentimentEnum ∧ row.urgency ∈ urgencyEnum :=
  ⟨⟨rfl, rfl, by decide, by decide⟩,
    addFeedback_enum_conditional aiNegative dbEmpty 5 sampleBody "discord"
      "Deploys are too slow" rfl rfl (by decide) (by decide) (by decide) (by decide)⟩

/-! ## Claim C6 -/

/-- Counterexample to C6: the fallback digest persisted when the model
call fails carries the placeholder summary
`Unable to generate summary`, not an empty summary message. -/
theorem generateDigest_fallback_summary_not_empty :
    ((handleGenerateDigest aiDown dbOne 7).db.digests.map (fun r => r.summary))
      = [Json.str "Unable to generate summary"]
    ∧ Json.str "Unable to generate summary" ≠ Json.str "" := by decide

/-- Claim C6 amended: with at least one feedback row, generation never
fails outright: when the model call errors or no parseable JSON is
found, the default digest object — placeholder summary
`Unable to generate summary`, empty theme and urgent-item arrays,
all-zero sentiment counts, empty recommendations — is returned and is
still persisted as a digest row. -/
theorem generateDigest_fallback_persists (ai : String → Except String String)
    (db : Db) (now : Nat) (hne : db.feedback ≠ [])
    (hfail : analysisFailed (ai (digestPrompt (recentFeedback db))) = true) :
    (handleGenerateDigest ai db now).status = 200
    ∧ (handleGenerateDigest ai db now).body
        = .obj [("success", .bool true), ("digest", defaultDigestData),
            ("feedback_count", .num (recentFeedback db).length)]
    ∧ ∃ row : DigestRow,
        (handleGenerateDigest ai db now).db.digests = db.digests ++ [row]
        ∧ row.summary = Json.str "Unable to generate summary"
        ∧ row.top_themes = "[]"
        ∧ row.urgent_items = "[]"
        ∧ row.sentiment_breakdown = "\x7b\"positive\":0,\"neutral\":0,\"negative\":0\x7d" := by
  have hempty : (recentFeedback db).isEmpty = false :=
    isEmpty_eq_false_of_ne_nil (recentFeedback_ne_nil hne)
  have hnone : parsedObjOf (ai (digestPrompt (recentFeedback db))) = none := by
    simpa [analysisFailed, Option.isNone_iff_eq_none] using hfail
  have h1 : fieldOrNull defaultDigestData "summary" = Json.str "Unable to generate summary" := by
    decide
  have h2 : jsonStringify (fieldOrNull defaultDigestData "top_themes") = "[]" := by decide
  have h3 : jsonStringify (fieldOrNull defaultDigestData "urgent_items") = "[]" := by decide
  have h4 : jsonStringify (fieldOrNull defaultDigestData "sentiment_breakdown")
      = "\x7b\"positive\":0,\"neutral\":0,\"negative\":0\x7d" := by decide
  simp only [handleGenerateDigest, hempty, Bool.false_eq_true, if_false, hnone, Option.getD_none]
  refine ⟨trivial, trivial, _, rfl, ?_, ?_, ?_, ?_⟩
  · exact h1
  · exact h2
  · exact h3
  · exact h4

/-- Witness for the amended C6: one stored row, failing model. -/
theorem generateDigest_fallback_persists_witness :
    (dbOne.feedback ≠ []
      ∧ analysisFailed (aiDown (digestPrompt (recentFeedback dbOne))) = true)
    ∧ ((handleGenerateDigest aiDown dbOne 7).status = 200
      ∧ ∃ row : DigestRow,
          (handleGenerateDigest aiDown dbOne 7).db.digests = dbOne.digests ++ [row]
          ∧ row.summary = Json.str "Unable to generate summary"
          ∧ row.top_themes = "[]") := by
  have h := generateDigest_fallback_persists aiDown dbOne 7 (by decide) (by decide)
  obtain ⟨row, h1, h2, h3, _⟩ := h.2.2
  exact ⟨⟨by decide, by decide⟩, h.1, row, h1, h2, h3⟩

/-! ## Claim C2 -/

/-- Counterexample to C2: a present but empty (falsy) sentiment field
is replaced by the default, so the classifier does not return the
parsed field of every present field, as the claim words it. -/
theorem analyse_default_on_falsy_field :
    analyseFeedback aiEmptySentiment "Deploys are too slow"
      = ⟨Json.str "neutral", Json.str "high", Json.str "performance"⟩
    ∧ claimAnalyse (aiEmptySentiment (analysePrompt "Deploys are too slow"))
      = ⟨Json.str "", Json.str "high", Json.str "performance"⟩
    ∧ analyseFeedback aiEmptySentiment "Deploys are too slow"
      ≠ claimAnalyse (aiEmptySentiment (analysePrompt "Deploys are too slow")) := by decide

theorem takesFieldOrDefault_jsOrField (o : Json) (k : String) (d : Json) :
    takesFieldOrDefault o k d (jsOrField (getField o k) d) := by
  cases hf : getField o k with
  | none => exact Or.inl ⟨hf, by simp [jsOrField, hf]⟩
  | some v =>
    cases ht : jsTruthy v with
    | false => exact Or.inr (Or.inl ⟨v, hf, ht, by simp [jsOrField, hf, ht]⟩)
    | true => exact Or.inr (Or.inr ⟨v, hf, ht, by simp [jsOrField, hf, ht]⟩)

/-- Claim C2 amended: the classifier never raises; on any failure it
returns exactly the default triple, and on parse success each field is
the parsed value when present and truthy, with the default substituted
when the field is missing or falsy (empty string, null, false, 0). -/
theorem analyse_total_field_discipline (ai : String → Except String String)
    (content : String) :
    (analysisFailed (ai (analysePrompt content)) = true →
      analyseFeedback ai content = fallbackAnalysis)
    ∧ (∀ o : Json, parsedObjOf (ai (analysePrompt content)) = some o →
        takesFieldOrDefault o "sentiment" (.str "neutral") (analyseFeedback ai content).sentiment
        ∧ takesFieldOrDefault o "urgency" (.str "medium") (analyseFeedback ai content).urgency
        ∧ takesFieldOrDefault o "themes" (.str "general") (analyseFeedback ai content).themes) := by
  constructor
  · intro hf
    exact analyseOutcome_of_failed hf
  · intro o hout
    rw [show analyseFeedback ai content = analyseOutcome (ai (analysePrompt content)) from rfl,
      analyseOutcome_of_parsed hout]
    exact ⟨takesFieldOrDefault_jsOrField o "sentiment" (.str "neutral"),
      takesFieldOrDefault_jsOrField o "urgency" (.str "medium"),
      takesFieldOrDefault_jsOrField o "themes" (.str "general")⟩

/-- Witness for the amended C2 at a concrete endpoint and text. -/
theorem analyse_total_field_discipline_witness :
    (analysisFailed (aiNegative (analysePrompt "Deploys are too slow")) = true →
      analyseFeedback aiNegative "Deploys are too slow" = fallbackAnalysis)
    ∧ (∀ o : Json, parsedObjOf (aiNegative (analysePrompt "Deploys are too slow")) = some o →
        takesFieldOrDefault o "sentiment" (.str "neutral")
          (analyseFeedback aiNegative "Deploys are too slow").sentiment
        ∧ takesFieldOrDefault o "urgency" (.str "medium")
            (analyseFeedback aiNegative "Deploys are too slow").urgency
        ∧ takesFieldOrDefault o "themes" (.str "general")
            (analyseFeedback aiNegative "Deploys are too slow").themes) :=
  analyse_total_field_discipline aiNegative "Deploys are too slow"

/-! ## Claim C8 -/

theorem latestDigest_eq_none {ds : List DigestRow} : latestDigest ds = none ↔ ds = [] := by
  cases ds with
  | nil => simp [latestDigest]
  | cons d ds =>
    simp only [latestDigest]
    constructor
    · intro h
      cases hl : latestDigest ds <;> rw [hl] at h <;> simp at h
    · intro h
      exact absurd h (List.cons_ne_nil d ds)

theorem latestDigest_spec : ∀ (ds : List DigestRow) (r : DigestRow),
    latestDigest ds = some r →
    ∃ pre post, ds = pre ++ r :: post
      ∧ (∀ d ∈ pre, d.created_at < r.created_at)
      ∧ (∀ d ∈ post, d.created_at ≤ r.created_at) := by
  intro ds
  induction ds with
  | nil => intro r h; simp [latestDigest] at h
  | cons d ds ih =>
    intro r h
    simp only [latestDigest] at h
    cases hl : latestDigest ds with
    | none =>
      simp only [hl] at h
      have hnil : ds = [] := latestDigest_eq_none.mp hl
      have hdr : d = r := by injection h
      subst hdr
      refine ⟨[], ds, by simp, by simp, ?_⟩
      intro x hx
      rw [hnil] at hx
      exact absurd hx (List.not_mem_nil x)
    | some e =>
      simp only [hl] at h
      have h' : (if e.created_at > d.created_at then e else d) = r := by injection h
      obtain ⟨pre, post, hds, hpre, hpost⟩ := ih e hl
      by_cases hgt : e.created_at > d.created_at
      · rw [if_pos hgt] at h'
        subst h'
        refine ⟨d :: pre, post, by simp [hds], ?_, hpost⟩
        intro x hx
        rcases List.mem_cons.mp hx with hx | hx
        · rw [hx]; exact hgt
        · exact hpre x hx
      · rw [if_neg hgt] at h'
        subst h'
        refine ⟨[], ds, by simp, by simp, ?_⟩
        intro x hx
        have hed : e.created_at ≤ d.created_at := Nat.le_of_not_lt hgt
        rw [hds] at hx
        rcases List.mem_append.mp hx with hx | hx
        · exact Nat.le_trans (Nat.le_of_lt (hpre x hx)) hed
        · rcases List.mem_cons.mp hx with hx | hx
          · rw [hx]; exact hed
          · exact Nat.le_trans (hpost x hx) hed

/-- Counterexample to C8: two digests share a `created_at`; the
latest-digest read returns the earlier-inserted row (id 1), not the
most recently inserted one (id 2), because the sorter is stable in
scan order and only `created_at` is sorted on. -/
theorem getDigest_tie_earliest_inserted :
    dbTie.digests = [digestRowA, digestRowB]
    ∧ digestRowA.created_at = digestRowB.created_at
    ∧ digestRowA.id = 1 ∧ digestRowB.id = 2
    ∧ latestDigest dbTie.digests = some digestRowA
    ∧ getField (handleGetDigest dbTie).body "id" = some (Json.num 1) := by decide

/-- Claim C8 amended: the latest-digest read answers 404 with an error
body over an empty digest store; otherwise it returns a row with the
greatest `created_at`, and among rows tying on `created_at` the
earliest-inserted one (the query sorts only on `created_at`, and the
sort is stable in scan order, so insertion-order ties resolve to the
oldest row, not the newest). -/
theorem getDigest_returns_latest (db : Db) :
    (db.digests = [] → (handleGetDigest db).status = 404
      ∧ (handleGetDigest db).body = errBody "No digest available. Generate one first.")
    ∧ (∀ r, latestDigest db.digests = some r →
        ∃ pre post, db.digests = pre ++ r :: post
          ∧ (∀ d ∈ pre, d.created_at < r.created_at)
          ∧ (∀ d ∈ post, d.created_at ≤ r.created_at))
    ∧ (db.digests ≠ [] → ∃ r, latestDigest db.digests = some r) := by
  refine ⟨?_, fun r h => latestDigest_spec db.digests r h, ?_⟩
  · intro h
    have hn : latestDigest db.digests = none := latestDigest_eq_none.mpr h
    simp [handleGetDigest, hn]
  · intro h
    cases hl : latestDigest db.digests with
    | none => exact absurd (latestDigest_eq_none.mp hl) h
    | some r => exact ⟨r, rfl⟩

/-- Witness for the amended C8: the empty store answers 404, and the
tie store decomposes around the returned row. -/
theorem getDigest_returns_latest_witness :
    ((handleGetDigest dbEmpty).status = 404
      ∧ (handleGetDigest dbEmpty).body = errBody "No digest available. Generate one first.")
    ∧ ∃ pre post, dbTie.digests = pre ++ digestRowA :: post
        ∧ (∀ d ∈ pre, d.created_at < digestRowA.created_at)
        ∧ (∀ d ∈ post, d.created_at ≤ digestRowA.created_at) :=
  ⟨(getDigest_returns_latest dbEmpty).1 rfl,
    (getDigest_returns_latest dbTie).2.1 digestRowA (by decide)⟩

/-! ## Claim C7 -/

theorem upToLastRBrace_eq_none : ∀ {cs : List Char}, upToLastRBrace cs = none ↔ '}' ∉ cs := by
  intro cs
  induction cs with
  | nil => simp [upToLastRBrace]
  | cons c cs ih =>
    simp only [upToLastRBrace]
    cases hcs : upToLastRBrace cs with
    | some r =>
      simp only [hcs]
      have : '}' ∈ cs := by
        by_contra hmem
        rw [← ih] at hmem
        rw [hmem] at hcs
        exact Option.noConfusion hcs
      simp [this]
    | none =>
      simp only [hcs]
      have hmem : '}' ∉ cs := ih.mp hcs
      by_cases hc : c = '}'
      · simp [hc]
      · simp [hc, hmem, Ne.symm hc]

theorem upToLastRBrace_eq_some : ∀ (cs r : List Char),
    upToLastRBrace cs = some r ↔
      ∃ m rr, cs = m ++ '}' :: rr ∧ '}' ∉ rr ∧ r = m ++ ['}'] := by
  intro cs
  induction cs with
  | nil =>
    intro r
    constructor
    · intro h; exact Option.noConfusion h
    · rintro ⟨m, rr, hm, -, -⟩
      exact absurd hm (by simp)
  | cons c cs ih =>
    intro r
    simp only [upToLastRBrace]
    cases hcs : upToLastRBrace cs with
    | some r' =>
      simp only [hcs, Option.some.injEq]
      obtain ⟨m, rr, hm, hrr, hr'⟩ := (ih r').mp hcs
      constructor
      · intro h
        refine ⟨c :: m, rr, by simp [hm], hrr, ?_⟩
        rw [← h, hr']
        simp
      · rintro ⟨m0, rr0, hm0, hrr0, hr0⟩
        cases m0 with
        | nil =>
          simp only [List.nil_append, List.cons.injEq] at hm0
          have hin : '}' ∈ cs := by rw [hm, List.mem_append]; right; simp
          rw [hm0.2] at hin
          exact absurd hin hrr0
        | cons c0 m1 =>
          simp only [List.cons_append, List.cons.injEq] at hm0
          obtain ⟨hc0, hcs1⟩ := hm0
          have : upToLastRBrace cs = some (m1 ++ ['}']) :=
            (ih (m1 ++ ['}'])).mpr ⟨m1, rr0, hcs1, hrr0, rfl⟩
          rw [hcs] at this
          have hr1 : r' = m1 ++ ['}'] := by injection this
          rw [hr0, hr1, ← hc0]
          simp
    | none =>
      simp only [hcs]
      have hmem : '}' ∉ cs := upToLastRBrace_eq_none.mp hcs
      by_cases hc : c = '}'
      · subst hc
        constructor
        · intro h
          have hr : r = ['}'] := by simpa using h.symm
          exact ⟨[], cs, by simp, hmem, by simp [hr]⟩
        · rintro ⟨m0, rr0, hm0, hrr0, hr0⟩
          cases m0 with
          | nil =>
            simp only [List.nil_append] at hr0
            simp [hr0]
          | cons c0 m1 =>
            simp only [List.cons_append, List.cons.injEq] at hm0
            have hin : '}' ∈ cs := by rw [hm0.2, List.mem_append]; right; simp
            exact absurd hin hmem
      · simp only [if_neg hc]
        constructor
        · intro h; exact Option.noConfusion h
        · rintro ⟨m0, rr0, hm0, hrr0, -⟩
          cases m0 with
          | nil =>
            simp only [List.nil_append, List.cons.injEq] at hm0
            exact absurd hm0.1 hc
          | cons c0 m1 =>
            simp only [List.cons_append, List.cons.injEq] at hm0
            have : '}' ∈ cs := by rw [hm0.2, List.mem_append]; right; simp
            exact absurd this hmem

theorem rbrace_mem_decomp {cs l m r : List Char} (hdec : cs = l ++ '{' :: m ++ '}' :: r) :
    '}' ∈ cs := by
  rw [hdec]
  simp

theorem braceMatch_eq_none : ∀ s : List Char,
    braceMatch s = none ↔ ∀ l m r : List Char, s ≠ l ++ '{' :: m ++ '}' :: r := by
  intro s
  induction s with
  | nil =>
    constructor
    · intro _ l m r hdec
      exact absurd hdec.symm (by simp)
    · intro _; rfl
  | cons c cs ih =>
    simp only [braceMatch]
    by_cases hc : c = '{'
    · subst hc
      rw [if_pos rfl]
      cases hup : upToLastRBrace cs with
      | some r0 =>
        obtain ⟨m, rr, hm, -, -⟩ := (upToLastRBrace_eq_some cs r0).mp hup
        constructor
        · intro h; exact Option.noConfusion h
        · intro hall
          exact absurd (by rw [hm]; simp : '{' :: cs = [] ++ '{' :: m ++ '}' :: rr)
            (hall [] m rr)
      | none =>
        have hmem : '}' ∉ cs := upToLastRBrace_eq_none.mp hup
        rw [ih]
        constructor
        · intro _ l m r hdec
          cases l with
          | nil =>
            have h2 : cs = m ++ '}' :: r := by
              rw [List.nil_append] at hdec
              injection hdec
            have hin : '}' ∈ cs := by rw [h2, List.mem_append]; right; simp
            exact absurd hin hmem
          | cons c0 l1 =>
            have h2 : cs = l1 ++ '{' :: m ++ '}' :: r := by
              rw [List.cons_append] at hdec
              injection hdec
            exact absurd (rbrace_mem_decomp h2) hmem
        · intro _ l m r hdec
          exact absurd (rbrace_mem_decomp hdec) hmem
    · rw [if_neg hc, ih]
      constructor
      · intro hall l m r hdec
        cases l with
        | nil =>
          rw [List.nil_append] at hdec
          have h1 : c = '{' := by injection hdec
          exact absurd h1 hc
        | cons c0 l1 =>
          rw [List.cons_append] at hdec
          have h2 : cs = l1 ++ '{' :: m ++ '}' :: r := by injection hdec
          exact absurd h2 (hall l1 m r)
      · intro hall l m r hdec
        exact absurd (by rw [hdec]; simp : c :: cs = (c :: l) ++ '{' :: m ++ '}' :: r)
          (hall (c :: l) m r)

theorem braceMatch_eq_some : ∀ s t : List Char,
    braceMatch s = some t ↔
      ∃ l m r : List Char, s = l ++ '{' :: m ++ '}' :: r
        ∧ '{' ∉ l ∧ '}' ∉ r ∧ t = '{' :: m ++ ['}'] := by
  intro s
  induction s with
  | nil =>
    intro t
    constructor
    · intro h; exact Option.noConfusion h
    · rintro ⟨l, m, r, hdec, -, -, -⟩
      exact absurd hdec.symm (by simp)
  | cons c cs ih =>
    intro t
    simp only [braceMatch]
    by_cases hc : c = '{'
    · subst hc
      rw [if_pos rfl]
      cases hup : upToLastRBrace cs with
      | some r0 =>
        obtain ⟨m, rr, hm, hrr, hr0⟩ := (upToLastRBrace_eq_some cs r0).mp hup
        constructor
        · intro h
          have ht : '{' :: r0 = t := by injection h
          refine ⟨[], m, rr, by simp [hm], by simp, hrr, ?_⟩
          rw [← ht, hr0]
          simp
        · rintro ⟨l, m0, r, hdec, hl, hr, ht⟩
          cases l with
          | nil =>
            rw [List.nil_append] at hdec
            have h2 : cs = m0 ++ '}' :: r := by injection hdec
            have hsome : upToLastRBrace cs = some (m0 ++ ['}']) :=
              (upToLastRBrace_eq_some cs (m0 ++ ['}'])).mpr ⟨m0, r, h2, hr, rfl⟩
            rw [hup] at hsome
            have hr0' : r0 = m0 ++ ['}'] := by injection hsome
            rw [ht, hr0']
            simp
          | cons c0 l1 =>
            rw [List.cons_append] at hdec
            have h1 : '{' = c0 := by injection hdec
            rw [← h1] at hl
            exact absurd (List.mem_cons_self '{' l1) hl
      | none =>
        have hmem : '}' ∉ cs := upToLastRBrace_eq_none.mp hup
        have hnone : braceMatch cs = none := by
          rw [braceMatch_eq_none]
          intro l m r hdec
          exact absurd (rbrace_mem_decomp hdec) hmem
        rw [hnone]
        constructor
        · intro h; exact Option.noConfusion h
        · rintro ⟨l, m0, r, hdec, hl, hr, -⟩
          cases l with
          | nil =>
            rw [List.nil_append] at hdec
            have h2 : cs = m0 ++ '}' :: r := by injection hdec
            have hin : '}' ∈ cs := by rw [h2, List.mem_append]; right; simp
            exact absurd hin hmem
          | cons c0 l1 =>
            rw [List.cons_append] at hdec
            have h2 : cs = l1 ++ '{' :: m0 ++ '}' :: r := by injection hdec
            exact absurd (rbrace_mem_decomp h2) hmem
    · rw [if_neg hc, ih t]
      constructor
      · rintro ⟨l, m, r, hdec, hl, hr, ht⟩
        refine ⟨c :: l, m, r, by simp [hdec], ?_, hr, ht⟩
        intro hin
        rcases List.mem_cons.mp hin with hin | hin
        · exact hc hin.symm
        · exact hl hin
      · rintro ⟨l, m, r, hdec, hl, hr, ht⟩
        cases l with
        | nil =>
          rw [List.nil_append] at hdec
          have h1 : c = '{' := by injection hdec
          exact absurd h1 hc
        | cons c0 l1 =>
          rw [List.cons_append] at hdec
          have h2 : cs = l1 ++ '{' :: m ++ '}' :: r := by injection hdec
          refine ⟨l1, m, r, h2, ?_, hr, ht⟩
          intro hin
          exact hl (List.mem_cons_of_mem c0 hin)

/-- Counterexample to C7: a response holding two JSON objects; the
extraction selects the whole first-lbrace-to-last-rbrace span, which
covers both objects and fails to parse, so the classifier falls back
to neutral rather than parsing the first object (whose sentiment is
`positive`). -/
theorem braceMatch_spans_both_objects :
    braceMatchStr "\x7b\"sentiment\":\"positive\"\x7d\x7b\"x\":0\x7d"
      = some "\x7b\"sentiment\":\"positive\"\x7d\x7b\"x\":0\x7d"
    ∧ jsonParse "\x7b\"sentiment\":\"positive\"\x7d"
        = some (.obj [("sentiment", .str "positive")])
    ∧ jsonParse "\x7b\"sentiment\":\"positive\"\x7d\x7b\"x\":0\x7d" = none
    ∧ analyseOutcome (.ok "\x7b\"sentiment\":\"positive\"\x7d\x7b\"x\":0\x7d")
        = fallbackAnalysis
    ∧ fallbackAnalysis.sentiment ≠ Json.str "positive" := by decide

/-- Claim C7 amended: the extraction step is the greedy brace regex:
it matches exactly when an opening brace is followed somewhere later
by a closing brace, and the selected substring runs from the first
opening brace of the text through its last closing brace — when the
text holds several JSON objects the span covers them all (and the
subsequent parse of the span, not of the first object, decides the
outcome); it yields nothing when no opening brace precedes a closing
one. -/
theorem braceMatch_greedy_span (s : List Char) :
    (braceMatch s = none ↔ ∀ l m r : List Char, s ≠ l ++ '{' :: m ++ '}' :: r)
    ∧ ∀ t : List Char, braceMatch s = some t ↔
        ∃ l m r : List Char, s = l ++ '{' :: m ++ '}' :: r
          ∧ '{' ∉ l ∧ '}' ∉ r ∧ t = '{' :: m ++ ['}'] :=
  ⟨braceMatch_eq_none s, fun t => braceMatch_eq_some s t⟩

/-- Witness for the amended C7 at a concrete text: the match is the
span from the first opening to the last closing brace. -/
theorem braceMatch_greedy_span_witness :
    ∃ l m r : List Char, "ab\x7bcd\x7def".toList = l ++ '{' :: m ++ '}' :: r
      ∧ '{' ∉ l ∧ '}' ∉ r ∧ "\x7bcd\x7d".toList = '{' :: m ++ ['}'] :=
  ((braceMatch_greedy_span "ab\x7bcd\x7def".toList).2 "\x7bcd\x7d".toList).mp (by decide)

/-! ## Claim C9: the serialization round trip

String bodies first: parsing one escaped character undoes the escape,
then a whole escaped body parses back to the original characters. -/

theorem hexVal_hexDigitChar : ∀ n : Nat, n < 16 → hexVal (hexDigitChar n) = some n := by
  decide

theorem parseStrBody_escChar (c : Char) (X cs r : List Char)
    (hX : parseStrBody X = some (cs, r)) :
    parseStrBody (escChar c ++ X) = some (c :: cs, r) := by
  by_cases h1 : c = '"'
  · subst h1; simp [escChar, parseStrBody, escResolve, hX]
  by_cases h2 : c = '\\'
  · subst h2; simp [escChar, h1, parseStrBody, escResolve, hX]
  by_cases h3 : c = Char.ofNat 8
  · subst h3; simp [escChar, parseStrBody, escResolve, hX]
  by_cases h4 : c = Char.ofNat 12
  · subst h4; simp [escChar, parseStrBody, escResolve, hX]
  by_cases h5 : c = '\n'
  · subst h5; simp [escChar, parseStrBody, escResolve, hX]
  by_cases h6 : c = '\r'
  · subst h6; simp [escChar, parseStrBody, escResolve, hX]
  by_cases h7 : c = '\t'
  · subst h7; simp [escChar, parseStrBody, escResolve, hX]
  by_cases h8 : c.toNat < 32
  · have hesc : escChar c
        = ['\\', 'u', '0', '0', hexDigitChar (c.toNat / 16), hexDigitChar (c.toNat % 16)] := by
      simp [escChar, h1, h2, h3, h4, h5, h6, h7, h8]
    rw [hesc]
    have hhi : hexVal (hexDigitChar (c.toNat / 16)) = some (c.toNat / 16) :=
      hexVal_hexDigitChar _ (by omega)
    have hlo : hexVal (hexDigitChar (c.toNat % 16)) = some (c.toNat % 16) :=
      hexVal_hexDigitChar _ (by omega)
    have harith : ((0 * 16 + 0) * 16 + c.toNat / 16) * 16 + c.toNat % 16 = c.toNat := by
      omega
    have hvalid : (c.toNat).isValidChar := Or.inl (by omega)
    have hchar : ∀ h : (c.toNat).isValidChar, Char.ofNatAux c.toNat h = c := by
      intro h
      have hofn : Char.ofNat c.toNat = Char.ofNatAux c.toNat h := dif_pos h
      rw [← hofn, Char.ofNat_toNat]
    simp only [List.cons_append, List.nil_append, parseStrBody, hhi, hlo, Option.bind_eq_bind,
      Option.some_bind, harith]
    rw [show (hexVal '0') = some 0 from by decide]
    simp only [Option.some_bind, harith]
    rw [dif_pos hvalid]
    simp [hX, hchar hvalid]
  · have hesc : escChar c = [c] := by
      simp [escChar, h1, h2, h3, h4, h5, h6, h7, h8]
    rw [hesc]
    rw [parseStrBody.eq_def]
    simp only [List.cons_append, List.nil_append]
    split
    · rename_i h
      have hc : c = '"' := by injection h
      exact absurd hc h1
    · rename_i h
      have hc : c = '\\' := by injection h
      exact absurd hc h2
    · rename_i h
      have hc : c = '\\' := by injection h
      exact absurd hc h2
    · rename_i h
      injection h with hc hX2
      subst hc
      subst hX2
      rw [if_neg h8]
      simp [hX]
    · rename_i h
      exact absurd h (by simp)

theorem parseStrBody_render : ∀ (cs rest : List Char),
    parseStrBody (cs.flatMap escChar ++ '"' :: rest) = some (cs, rest) := by
  intro cs
  induction cs with
  | nil => intro rest; simp [parseStrBody]
  | cons c cs ih =>
    intro rest
    rw [List.flatMap_cons, List.append_assoc]
    exact parseStrBody_escChar c _ cs rest (ih rest)

/-! Numerals: the digit run of a positive number parses back to it. -/

theorem digitsAcc_run : ∀ (ds rest : List Char) (a : Nat),
    (∀ c ∈ ds, isDigitChar c = true) → notDigitHead rest = true →
    digitsAcc (ds ++ rest) a
      = (ds.foldl (fun x c => x * 10 + (c.toNat - '0'.toNat)) a, rest) := by
  intro ds
  induction ds with
  | nil =>
    intro rest a _ hrest
    cases rest with
    | nil => rfl
    | cons c t =>
      simp only [notDigitHead, Bool.not_eq_true'] at hrest
      simp [digitsAcc, hrest]
  | cons c ds ih =>
    intro rest a hds hrest
    have hc : isDigitChar c = true := hds c (List.mem_cons_self c ds)
    simp only [List.cons_append, digitsAcc, hc, if_pos, List.foldl_cons]
    exact ih rest _ (fun x hx => hds x (List.mem_cons_of_mem c hx)) hrest

theorem digitChar_isDigit : ∀ d : Nat, d < 10 →
    isDigitChar (Char.ofNat ('0'.toNat + d)) = true := by decide

theorem digitChar_val : ∀ d : Nat, d < 10 →
    (Char.ofNat ('0'.toNat + d)).toNat - '0'.toNat = d := by decide

theorem natChars_all_digit : ∀ (f n : Nat), n ≤ f →
    ∀ c ∈ natChars f n, isDigitChar c = true := by
  intro f
  induction f with
  | zero => intro n _ c hc; exact absurd hc (List.not_mem_nil c)
  | succ f ih =>
    intro n hn c hc
    simp only [natChars] at hc
    by_cases h0 : n = 0
    · rw [if_pos h0] at hc
      exact absurd hc (List.not_mem_nil c)
    · rw [if_neg h0] at hc
      rcases List.mem_append.mp hc with hc | hc
      · exact ih (n / 10) (by omega) c hc
      · rw [List.mem_singleton.mp hc]
        exact digitChar_isDigit (n % 10) (Nat.mod_lt _ (by omega))

theorem natChars_ne_nil {f n : Nat} (h1 : 1 ≤ n) (hf : n ≤ f) : natChars f n ≠ [] := by
  cases f with
  | zero => omega
  | succ f =>
    simp only [natChars, if_neg (by omega : ¬n = 0)]
    simp

theorem natChars_zero : ∀ f : Nat, natChars f 0 = [] := by
  intro f
  cases f with
  | zero => rfl
  | succ f => simp [natChars]

theorem foldl_natChars : ∀ n : Nat, ∀ f : Nat, 1 ≤ n → n ≤ f →
    (natChars f n).foldl (fun x c => x * 10 + (c.toNat - '0'.toNat)) 0 = n := by
  intro n
  induction n using Nat.strong_induction_on with
  | _ n ih =>
    intro f h1 hf
    cases f with
    | zero => omega
    | succ f =>
      simp only [natChars, if_neg (by omega : ¬n = 0), List.foldl_append, List.foldl_cons,
        List.foldl_nil]
      by_cases h10 : n < 10
      · have hdiv : n / 10 = 0 := by omega
        rw [hdiv, natChars_zero, List.foldl_nil, digitChar_val (n % 10) (by omega)]
        omega
      · have hdiv1 : 1 ≤ n / 10 := by omega
        have hdivlt : n / 10 < n := by omega
        have hdivf : n / 10 ≤ f := by omega
        rw [ih (n / 10) hdivlt f hdiv1 hdivf, digitChar_val (n % 10) (by omega)]
        omega

theorem parseNatNum_render (n : Nat) (rest : List Char) (h1 : 1 ≤ n)
    (hrest : notDigitHead rest = true) :
    parseNatNum (natChars n n ++ rest) = some (n, rest) := by
  cases hnc : natChars n n with
  | nil => exact absurd hnc (natChars_ne_nil h1 le_rfl)
  | cons c t =>
    have hcd : isDigitChar c = true :=
      natChars_all_digit n n le_rfl c (by rw [hnc]; exact List.mem_cons_self c t)
    have htd : ∀ x ∈ t, isDigitChar x = true := fun x hx =>
      natChars_all_digit n n le_rfl x (by rw [hnc]; exact List.mem_cons_of_mem c hx)
    have hfold := foldl_natChars n n h1 le_rfl
    rw [hnc, List.foldl_cons] at hfold
    simp only [List.cons_append, parseNatNum, hcd, if_pos]
    rw [digitsAcc_run t rest _ htd hrest]
    simp only [Nat.zero_mul, Nat.zero_add] at hfold
    rw [hfold]

theorem digit_ne_minus {c : Char} (hc : isDigitChar c = true) : ¬c = '-' := by
  intro h
  subst h
  exact absurd hc (by decide)

theorem parseIntNum_render (i : Int) (rest : List Char) (hrest : notDigitHead rest = true) :
    parseIntNum (renderInt i ++ rest) = some (i, rest) := by
  by_cases h0 : i = 0
  · subst h0
    have hz : digitsAcc rest 0 = (0, rest) := by
      have := digitsAcc_run [] rest 0 (by intro c hc; exact absurd hc (List.not_mem_nil c)) hrest
      simpa using this
    simp [renderInt, parseIntNum, parseNatNum, isDigitChar, hz]
  by_cases hneg : i < 0
  · have habs : 1 ≤ i.natAbs := by omega
    have harg : renderInt i ++ rest = '-' :: (natChars i.natAbs i.natAbs ++ rest) := by
      simp [renderInt, h0, hneg]
    rw [harg]
    simp only [parseIntNum, if_pos]
    rw [parseNatNum_render i.natAbs rest habs hrest]
    have hi : -(i.natAbs : Int) = i := by omega
    simp only [Option.map_some']
    rw [hi]
  · have habs : 1 ≤ i.natAbs := by omega
    have harg : renderInt i ++ rest = natChars i.natAbs i.natAbs ++ rest := by
      simp [renderInt, h0, hneg]
    rw [harg]
    cases hnc : natChars i.natAbs i.natAbs with
    | nil => exact absurd hnc (natChars_ne_nil habs le_rfl)
    | cons c t =>
      have hcd : isDigitChar c = true :=
        natChars_all_digit i.natAbs i.natAbs le_rfl c (by rw [hnc]; exact List.mem_cons_self c t)
      have hmain := parseNatNum_render i.natAbs rest habs hrest
      rw [hnc] at hmain
      simp only [List.cons_append, parseIntNum, if_neg (digit_ne_minus hcd)]
      rw [show c :: (t ++ rest) = (c :: t) ++ rest from rfl, hmain]
      have hi : (i.natAbs : Int) = i := by omega
      simp only [Option.map_some']
      rw [hi]

/-! Head characters of rendered output, and parser dispatch. -/

theorem skipWs_cons_not {c : Char} (cs : List Char) (h : isWsChar c = false) :
    skipWs (c :: cs) = c :: cs := by
  simp [skipWs, h]

theorem digit_head_facts {c : Char} (hc : isDigitChar c = true) :
    isWsChar c = false ∧ c ≠ ']' ∧ c ≠ '}' ∧ c ≠ 'n' ∧ c ≠ 't' ∧ c ≠ 'f'
      ∧ c ≠ '"' ∧ c ≠ '[' ∧ c ≠ '{' := by
  have hws : isWsChar c = false := by
    cases h : isWsChar c with
    | false => rfl
    | true =>
      exfalso
      simp only [isWsChar, Bool.or_eq_true, beq_iff_eq] at h
      rcases h with ((h | h) | h) | h <;> (subst h; exact absurd hc (by decide))
  refine ⟨hws, ?_, ?_, ?_, ?_, ?_, ?_, ?_, ?_⟩ <;>
    (intro h; subst h; exact absurd hc (by decide))

theorem parseVal_null_eq (f : Nat) (r : List Char) :
    parseVal (f + 1) ('n' :: 'u' :: 'l' :: 'l' :: r) = some (.null, r) := rfl

theorem parseVal_true_eq (f : Nat) (r : List Char) :
    parseVal (f + 1) ('t' :: 'r' :: 'u' :: 'e' :: r) = some (.bool true, r) := rfl

theorem parseVal_false_eq (f : Nat) (r : List Char) :
    parseVal (f + 1) ('f' :: 'a' :: 'l' :: 's' :: 'e' :: r) = some (.bool false, r) := rfl

theorem parseVal_str_eq (f : Nat) (x : List Char) :
    parseVal (f + 1) ('"' :: x) = (parseStrBody x).map (fun p => (.str ⟨p.1⟩, p.2)) := rfl

theorem parseVal_arr_eq (f : Nat) (x : List Char) :
    parseVal (f + 1) ('[' :: x) = parseArrBody f (skipWs x) := rfl

theorem parseVal_obj_eq (f : Nat) (x : List Char) :
    parseVal (f + 1) ('{' :: x) = parseObjBody f (skipWs x) := rfl

theorem parseVal_num_dispatch (f : Nat) (c : Char) (cs : List Char)
    (hws : isWsChar c = false) (hn : c ≠ 'n') (ht : c ≠ 't') (hf : c ≠ 'f') (hq : c ≠ '"')
    (hbk : c ≠ '[') (hbc : c ≠ '{') (hnum : c = '-' ∨ isDigitChar c = true) :
    parseVal (f + 1) (c :: cs) = (parseIntNum (c :: cs)).map (fun p => (.num p.1, p.2)) := by
  simp only [parseVal, skipWs, hws, Bool.false_eq_true, if_false]
  rw [if_neg hn, if_neg ht, if_neg hf, if_neg hq, if_neg hbk, if_neg hbc, if_pos hnum]

/-! Object assembly: collecting a duplicate-free member list changes
nothing. -/

theorem putMember_fresh : ∀ (acc : List (String × Json)) (k : String) (v : Json),
    (∀ m ∈ acc, m.1 ≠ k) → putMember acc k v = acc ++ [(k, v)] := by
  intro acc
  induction acc with
  | nil => intro k v _; rfl
  | cons m ms ih =>
    intro k v hfr
    obtain ⟨k', v'⟩ := m
    have hne : k' ≠ k := hfr (k', v') (List.mem_cons_self _ _)
    simp only [putMember, if_neg hne, List.cons_append]
    rw [ih k v (fun x hx => hfr x (List.mem_cons_of_mem _ hx))]

theorem collectMembers_aux : ∀ (ms acc : List (String × Json)),
    ((acc ++ ms).map Prod.fst).Nodup →
    ms.foldl (fun a m => putMember a m.1 m.2) acc = acc ++ ms := by
  intro ms
  induction ms with
  | nil => intro acc _; simp
  | cons m ms ih =>
    intro acc hnd
    have hfr : ∀ x ∈ acc, x.1 ≠ m.1 := by
      intro x hx
      have hmap : ((acc ++ m :: ms).map Prod.fst) = acc.map Prod.fst
          ++ m.1 :: ms.map Prod.fst := by simp
      rw [hmap] at hnd
      have hdisj := (List.nodup_append.mp hnd).2.2
      intro heq
      exact hdisj (List.mem_map_of_mem Prod.fst hx) (by rw [heq]; simp)
    have hstep : putMember acc m.1 m.2 = acc ++ [m] := by
      rw [putMember_fresh acc m.1 m.2 hfr]
    rw [List.foldl_cons, hstep, ih (acc ++ [m]) (by simpa using hnd)]
    simp

theorem collectMembers_self {ms : List (String × Json)}
    (h : (ms.map Prod.fst).Nodup) : collectMembers ms = ms := by
  have := collectMembers_aux ms [] (by simpa using h)
  simpa [collectMembers] using this

/-! Every rendered value begins with a non-whitespace character that
closes nothing. -/

theorem renderJson_head : ∀ v : Json, ∃ c t, renderJson v = c :: t
    ∧ isWsChar c = false ∧ c ≠ ']' ∧ c ≠ '}' := by
  intro v
  cases v with
  | null => refine ⟨'n', _, rfl, ?_, ?_, ?_⟩ <;> decide
  | bool b =>
    cases b with
    | true => refine ⟨'t', _, rfl, ?_, ?_, ?_⟩ <;> decide
    | false => refine ⟨'f', _, rfl, ?_, ?_, ?_⟩ <;> decide
  | str s => refine ⟨'"', _, rfl, ?_, ?_, ?_⟩ <;> decide
  | arr xs =>
    cases xs with
    | nil => refine ⟨'[', _, rfl, ?_, ?_, ?_⟩ <;> decide
    | cons x xs => refine ⟨'[', _, rfl, ?_, ?_, ?_⟩ <;> decide
  | obj ms =>
    cases ms with
    | nil => refine ⟨'{', _, rfl, ?_, ?_, ?_⟩ <;> decide
    | cons m ms => refine ⟨'{', _, rfl, ?_, ?_, ?_⟩ <;> decide
  | num i =>
    by_cases h0 : i = 0
    · subst h0
      refine ⟨'0', _, rfl, ?_, ?_, ?_⟩ <;> decide
    by_cases hneg : i < 0
    · refine ⟨'-', natChars i.natAbs i.natAbs, by simp [renderJson, renderInt, h0, hneg],
        ?_, ?_, ?_⟩ <;> decide
    · have habs : 1 ≤ i.natAbs := by omega
      cases hnc : natChars i.natAbs i.natAbs with
      | nil => exact absurd hnc (natChars_ne_nil habs le_rfl)
      | cons c t =>
        have hcd : isDigitChar c = true :=
          natChars_all_digit i.natAbs i.natAbs le_rfl c
            (by rw [hnc]; exact List.mem_cons_self c t)
        obtain ⟨hws, hbr, hbc, -⟩ := digit_head_facts hcd
        refine ⟨c, t, ?_, hws, hbr, hbc⟩
        simp [renderJson, renderInt, h0, hneg, hnc]

theorem skipWs_renderJson (v : Json) (x : List Char) :
    skipWs (renderJson v ++ x) = renderJson v ++ x := by
  obtain ⟨c, t, hv, hws, -, -⟩ := renderJson_head v
  rw [hv, List.cons_append, skipWs_cons_not _ hws]

theorem renderInt_head (i : Int) : ∃ c t, renderInt i = c :: t
    ∧ isWsChar c = false ∧ c ≠ 'n' ∧ c ≠ 't' ∧ c ≠ 'f' ∧ c ≠ '"' ∧ c ≠ '[' ∧ c ≠ '{'
    ∧ (c = '-' ∨ isDigitChar c = true) := by
  by_cases h0 : i = 0
  · subst h0
    exact ⟨'0', [], rfl, by decide, by decide, by decide, by decide, by decide, by decide,
      by decide, Or.inr (by decide)⟩
  by_cases hneg : i < 0
  · refine ⟨'-', natChars i.natAbs i.natAbs, ?_, by decide, by decide, by decide, by decide,
      by decide, by decide, by decide, Or.inl rfl⟩
    simp [renderInt, h0, hneg]
  · have habs : 1 ≤ i.natAbs := by omega
    cases hnc : natChars i.natAbs i.natAbs with
    | nil => exact absurd hnc (natChars_ne_nil habs le_rfl)
    | cons c t =>
      have hcd : isDigitChar c = true :=
        natChars_all_digit i.natAbs i.natAbs le_rfl c
          (by rw [hnc]; exact List.mem_cons_self c t)
      obtain ⟨hws, -, -, hn, ht, hf, hq, hbk, hbc⟩ := digit_head_facts hcd
      refine ⟨c, t, ?_, hws, hn, ht, hf, hq, hbk, hbc, Or.inr hcd⟩
      simp [renderInt, h0, hneg, hnc]

theorem notDigitHead_arrRest (xs : List Json) (rest : List Char) :
    notDigitHead (renderArrRest xs ++ ']' :: rest) = true := by
  cases xs with
  | nil => simp [renderArrRest, notDigitHead]; decide
  | cons x xs => simp [renderArrRest, notDigitHead]; decide

theorem notDigitHead_objRest (ms : List (String × Json)) (rest : List Char) :
    notDigitHead (renderObjRest ms ++ '}' :: rest) = true := by
  cases ms with
  | nil => simp [renderObjRest, notDigitHead]; decide
  | cons m ms => simp [renderObjRest, notDigitHead]; decide

/-- Every rendered member begins with the double quote of its key. -/
theorem renderMem_head (k : String) (w : Json) : ∃ t, renderMem (k, w) = '"' :: t :=
  ⟨k.toList.flatMap escChar ++ '"' :: ':' :: renderJson w, by simp [renderMem, renderStr]⟩

mutual

theorem rt_val (v : Json) (rest : List Char) (fuel : Nat) (hw : JsonWf v)
    (hlen : (renderJson v).length < fuel) (hrest : notDigitHead rest = true) :
    parseVal fuel (renderJson v ++ rest) = some (v, rest) := by
  cases hw with
  | null =>
    cases fuel with
    | zero => exact absurd hlen (Nat.not_lt_zero _)
    | succ f => exact parseVal_null_eq f rest
  | bool b =>
    cases fuel with
    | zero => exact absurd hlen (Nat.not_lt_zero _)
    | succ f => cases b with
      | true => exact parseVal_true_eq f rest
      | false => exact parseVal_false_eq f rest
  | str s =>
    cases fuel with
    | zero => exact absurd hlen (Nat.not_lt_zero _)
    | succ f =>
      have harg : renderJson (.str s) ++ rest
          = '"' :: (s.toList.flatMap escChar ++ '"' :: rest) := by
        simp [renderJson, renderStr]
      rw [harg, parseVal_str_eq, parseStrBody_render]
      rfl
  | num n =>
    cases fuel with
    | zero => exact absurd hlen (Nat.not_lt_zero _)
    | succ f =>
      obtain ⟨c, t, hci, hws, hn, ht, hf, hq, hbk, hbc, hnum⟩ := renderInt_head n
      have harg : renderJson (.num n) ++ rest = c :: (t ++ rest) := by
        simp [renderJson, hci]
      rw [harg, parseVal_num_dispatch f c (t ++ rest) hws hn ht hf hq hbk hbc hnum]
      rw [show c :: (t ++ rest) = renderInt n ++ rest from by rw [hci]; simp]
      rw [parseIntNum_render n rest hrest]
      rfl
  | arr xs hxs =>
    cases xs with
    | nil =>
      cases fuel with
      | zero => exact absurd hlen (Nat.not_lt_zero _)
      | succ f =>
        have harg : renderJson (.arr []) ++ rest = '[' :: (']' :: rest) := by
          simp [renderJson]
        rw [harg, parseVal_arr_eq, skipWs_cons_not _ (by decide : isWsChar ']' = false)]
        cases f with
        | zero => exact absurd hlen (by simp [renderJson])
        | succ f2 => simp [parseArrBody]
    | cons x xs =>
      cases fuel with
      | zero => exact absurd hlen (Nat.not_lt_zero _)
      | succ f =>
        have hlen2 : (renderJson x).length + (renderArrRest xs).length + 2 < f + 1 := by
          have he : (renderJson (Json.arr (x :: xs))).length
              = (renderJson x).length + (renderArrRest xs).length + 2 := by
            simp only [renderJson, List.length_cons, List.length_append, List.length_nil]
            try omega
          omega
        have harg : renderJson (Json.arr (x :: xs)) ++ rest
            = '[' :: (renderJson x ++ (renderArrRest xs ++ ']' :: rest)) := by
          simp [renderJson]
        rw [harg, parseVal_arr_eq, skipWs_renderJson]
        cases f with
        | zero => omega
        | succ f2 =>
          have hval : parseVal f2 (renderJson x ++ (renderArrRest xs ++ ']' :: rest))
              = some (x, renderArrRest xs ++ ']' :: rest) :=
            rt_val x (renderArrRest xs ++ ']' :: rest) f2
              (hxs x (List.mem_cons_self x xs)) (by omega) (notDigitHead_arrRest xs rest)
          have htail : parseArrTail f2 (renderArrRest xs ++ ']' :: rest)
              = some (xs, rest) :=
            rt_arrTail xs rest f2 (fun y hy => hxs y (List.mem_cons_of_mem x hy)) (by omega)
          obtain ⟨c, t, hcx, hws, hbr, -⟩ := renderJson_head x
          have hshape : renderJson x ++ (renderArrRest xs ++ ']' :: rest)
              = c :: (t ++ (renderArrRest xs ++ ']' :: rest)) := by
            rw [hcx]; simp
          rw [hshape] at hval ⊢
          simp only [parseArrBody, if_neg hbr, hval, htail]
  | obj ms hnd hms =>
    cases ms with
    | nil =>
      cases fuel with
      | zero => exact absurd hlen (Nat.not_lt_zero _)
      | succ f =>
        have harg : renderJson (.obj []) ++ rest = '{' :: ('}' :: rest) := by
          simp [renderJson]
        rw [harg, parseVal_obj_eq, skipWs_cons_not _ (by decide : isWsChar '}' = false)]
        cases f with
        | zero => exact absurd hlen (by simp [renderJson])
        | succ f2 => simp [parseObjBody]
    | cons m ms =>
      obtain ⟨k, w⟩ := m
      cases fuel with
      | zero => exact absurd hlen (Nat.not_lt_zero _)
      | succ f =>
        have hlen2 : (renderMem (k, w)).length + (renderObjRest ms).length + 2 < f + 1 := by
          have he : (renderJson (Json.obj ((k, w) :: ms))).length
              = (renderMem (k, w)).length + (renderObjRest ms).length + 2 := by
            simp only [renderJson, List.length_cons, List.length_append, List.length_nil]
            try omega
          omega
        have harg : renderJson (Json.obj ((k, w) :: ms)) ++ rest
            = '{' :: (renderMem (k, w) ++ (renderObjRest ms ++ '}' :: rest)) := by
          simp [renderJson]
        rw [harg, parseVal_obj_eq]
        obtain ⟨t, hmt⟩ := renderMem_head k w
        have hskip : skipWs (renderMem (k, w) ++ (renderObjRest ms ++ '}' :: rest))
            = renderMem (k, w) ++ (renderObjRest ms ++ '}' :: rest) := by
          rw [hmt, List.cons_append, skipWs_cons_not _ (by decide : isWsChar '"' = false)]
        rw [hskip]
        cases f with
        | zero => omega
        | succ f2 =>
          have hmem : parseMember f2 (renderMem (k, w) ++ (renderObjRest ms ++ '}' :: rest))
              = some (k, w, renderObjRest ms ++ '}' :: rest) :=
            rt_member k w (renderObjRest ms ++ '}' :: rest) f2
              (hms (k, w) (List.mem_cons_self _ _)) (by omega) (notDigitHead_objRest ms rest)
          have htail : parseObjTail f2 (renderObjRest ms ++ '}' :: rest)
              = some (ms, rest) :=
            rt_objTail ms rest f2 (fun y hy => hms y (List.mem_cons_of_mem _ hy)) (by omega)
          have hshape : renderMem (k, w) ++ (renderObjRest ms ++ '}' :: rest)
              = '"' :: (t ++ (renderObjRest ms ++ '}' :: rest)) := by
            rw [hmt]; simp
          rw [hshape] at hmem ⊢
          simp only [parseObjBody, if_neg (by decide : ('"' : Char) ≠ '}'), hmem, htail]
          rw [collectMembers_self hnd]
termination_by fuel
decreasing_by all_goals omega

theorem rt_arrTail (xs : List Json) (rest : List Char) (fuel : Nat)
    (hw : ∀ x ∈ xs, JsonWf x) (hlen : (renderArrRest xs).length < fuel) :
    parseArrTail fuel (renderArrRest xs ++ ']' :: rest) = some (xs, rest) := by
  cases fuel with
  | zero => exact absurd hlen (Nat.not_lt_zero _)
  | succ f =>
    cases xs with
    | nil =>
      simp only [renderArrRest, List.nil_append, parseArrTail,
        skipWs_cons_not _ (by decide : isWsChar ']' = false)]
    | cons x xs =>
      have hlen2 : (renderJson x).length + (renderArrRest xs).length + 1 < f + 1 := by
        have he : (renderArrRest (x :: xs)).length
            = (renderJson x).length + (renderArrRest xs).length + 1 := by
          simp only [renderArrRest, List.length_cons, List.length_append, List.length_nil]
          try omega
        omega
      have harg : renderArrRest (x :: xs) ++ ']' :: rest
          = ',' :: (renderJson x ++ (renderArrRest xs ++ ']' :: rest)) := by
        simp [renderArrRest]
      have hval : parseVal f (renderJson x ++ (renderArrRest xs ++ ']' :: rest))
          = some (x, renderArrRest xs ++ ']' :: rest) :=
        rt_val x (renderArrRest xs ++ ']' :: rest) f (hw x (List.mem_cons_self x xs))
          (by omega) (notDigitHead_arrRest xs rest)
      have htail : parseArrTail f (renderArrRest xs ++ ']' :: rest) = some (xs, rest) :=
        rt_arrTail xs rest f (fun y hy => hw y (List.mem_cons_of_mem x hy)) (by omega)
      rw [harg]
      simp only [parseArrTail, skipWs_cons_not _ (by decide : isWsChar ',' = false),
        hval, htail]
termination_by fuel
decreasing_by all_goals omega

theorem rt_member (k : String) (v : Json) (rest : List Char) (fuel : Nat)
    (hw : JsonWf v) (hlen : (renderMem (k, v)).length < fuel)
    (hrest : notDigitHead rest = true) :
    parseMember fuel (renderMem (k, v) ++ rest) = some (k, v, rest) := by
  cases fuel with
  | zero => exact absurd hlen (Nat.not_lt_zero _)
  | succ f =>
    have harg : renderMem (k, v) ++ rest
        = '"' :: (k.toList.flatMap escChar ++ '"' :: ':' :: (renderJson v ++ rest)) := by
      simp [renderMem, renderStr]
    have hlen2 : (renderJson v).length + 3 ≤ (renderMem (k, v)).length := by
      simp only [renderMem, renderStr, List.length_append, List.length_cons,
        List.length_nil]
      omega
    have hval : parseVal f (renderJson v ++ rest) = some (v, rest) :=
      rt_val v rest f hw (by omega) hrest
    rw [harg]
    simp only [parseMember, skipWs_cons_not _ (by decide : isWsChar '"' = false),
      parseStrBody_render, skipWs_cons_not _ (by decide : isWsChar ':' = false), hval]
    rfl
termination_by fuel
decreasing_by all_goals omega

theorem rt_objTail (ms : List (String × Json)) (rest : List Char) (fuel : Nat)
    (hw : ∀ m ∈ ms, JsonWf m.2) (hlen : (renderObjRest ms).length < fuel) :
    parseObjTail fuel (renderObjRest ms ++ '}' :: rest) = some (ms, rest) := by
  cases fuel with
  | zero => exact absurd hlen (Nat.not_lt_zero _)
  | succ f =>
    cases ms with
    | nil =>
      simp only [renderObjRest, List.nil_append, parseObjTail,
        skipWs_cons_not _ (by decide : isWsChar '}' = false)]
    | cons m ms =>
      obtain ⟨k, w⟩ := m
      have hlen2 : (renderMem (k, w)).length + (renderObjRest ms).length + 1 < f + 1 := by
        have he : (renderObjRest ((k, w) :: ms)).length
            = (renderMem (k, w)).length + (renderObjRest ms).length + 1 := by
          simp only [renderObjRest, List.length_cons, List.length_append, List.length_nil]
          try omega
        omega
      have harg : renderObjRest ((k, w) :: ms) ++ '}' :: rest
          = ',' :: (renderMem (k, w) ++ (renderObjRest ms ++ '}' :: rest)) := by
        simp [renderObjRest]
      have hmem : parseMember f (renderMem (k, w) ++ (renderObjRest ms ++ '}' :: rest))
          = some (k, w, renderObjRest ms ++ '}' :: rest) :=
        rt_member k w (renderObjRest ms ++ '}' :: rest) f
          (hw (k, w) (List.mem_cons_self _ _)) (by omega) (notDigitHead_objRest ms rest)
      have htail : parseObjTail f (renderObjRest ms ++ '}' :: rest) = some (ms, rest) :=
        rt_objTail ms rest f (fun y hy => hw y (List.mem_cons_of_mem _ hy)) (by omega)
      rw [harg]
      simp only [parseObjTail, skipWs_cons_not _ (by decide : isWsChar ',' = false),
        hmem, htail]
termination_by fuel
decreasing_by all_goals omega

end

/-! From the mutual induction to the two `JSON` functions the handlers
call. -/

/-- A serialized document is never the empty string, so the read-time
defaults in `handleGetDigest` never replace it. -/
theorem jsOrStr_stringify (v : Json) (d : String) :
    jsOrStr (jsonStringify v) d = jsonStringify v := by
  obtain ⟨c, t, hv, -, -, -⟩ := renderJson_head v
  have hne : jsonStringify v ≠ "" := by
    intro h
    have h2 : renderJson v = [] := congrArg String.data h
    rw [hv] at h2
    exact absurd h2 (by simp)
  simp [jsOrStr, hne]

/-- `JSON.parse` inverts `JSON.stringify` on every well-formed value. -/
theorem jsonParse_stringify (v : Json) (hw : JsonWf v) :
    jsonParse (jsonStringify v) = some v := by
  have h := rt_val v [] ((renderJson v).length + 1) hw (by omega) rfl
  rw [List.append_nil] at h
  have hlist : (jsonStringify v).toList = renderJson v := rfl
  simp only [jsonParse, hlist, h]
  simp [skipWs]

/-- Claim C9: a digest's top_themes, urgent_items and sentiment_breakdown,
serialized to JSON text when the digest row is persisted and deserialized
at read time behind the fallback defaults of `handleGetDigest`, come back
deep-equal to the original structures, list order preserved and the
sentiment map intact. -/
theorem digest_fields_roundtrip (t u b : Json)
    (ht : JsonWf t) (hu : JsonWf u) (hb : JsonWf b) :
    jsonParse (jsOrStr (jsonStringify t) "[]") = some t
      ∧ jsonParse (jsOrStr (jsonStringify u) "[]") = some u
      ∧ jsonParse (jsOrStr (jsonStringify b) "\x7b\x7d") = some b := by
  rw [jsOrStr_stringify, jsOrStr_stringify, jsOrStr_stringify]
  exact ⟨jsonParse_stringify t ht, jsonParse_stringify u hu, jsonParse_stringify b hb⟩

/-- The round trip at a concrete digest: two themes, one urgent item and
a three-key sentiment breakdown survive persist and read unchanged. -/
theorem digest_fields_roundtrip_witness :
    jsonParse (jsOrStr (jsonStringify (Json.arr [Json.str "performance", Json.str "ui"])) "[]")
        = some (Json.arr [Json.str "performance", Json.str "ui"])
      ∧ jsonParse (jsOrStr (jsonStringify (Json.arr [Json.str "crash on login"])) "[]")
        = some (Json.arr [Json.str "crash on login"])
      ∧ jsonParse (jsOrStr (jsonStringify (Json.obj [("positive", Json.num 2),
            ("neutral", Json.num 1), ("negative", Json.num 0)])) "\x7b\x7d")
        = some (Json.obj [("positive", Json.num 2), ("neutral", Json.num 1),
            ("negative", Json.num 0)]) :=
  digest_fields_roundtrip
    (Json.arr [Json.str "performance", Json.str "ui"])
    (Json.arr [Json.str "crash on login"])
    (Json.obj [("positive", Json.num 2), ("neutral", Json.num 1), ("negative", Json.num 0)])
    (by
      refine JsonWf.arr _ ?_
      intro x hx
      simp only [List.mem_cons, List.not_mem_nil, or_false] at hx
      rcases hx with h | h <;> (subst h; exact JsonWf.str _))
    (by
      refine JsonWf.arr _ ?_
      intro x hx
      simp only [List.mem_cons, List.not_mem_nil, or_false] at hx
      subst hx
      exact JsonWf.str _)
    (by
      refine JsonWf.obj _ (by decide) ?_
      intro m hm
      simp only [List.mem_cons, List.not_mem_nil, or_false] at hm
      rcases hm with h | h | h <;> (subst h; exact JsonWf.num _))

end FeedbackPulse
